import Mathlib

/-!
# Tag cloud on a Fibonacci sphere (`script.js`)

A shallow embedding of the point generator (`FibonacciSphere`) and of the
orientation and projection engine (`TagsCloud`) of `script.js`.

Numbers.  The program computes with JavaScript numbers.  The embedding is
written over an arbitrary linearly ordered field `α` (so that every
definition can be run on `ℚ`), the functions of the JavaScript `Math` object
are the fields of a record `JSMath α`, and the theorems about trigonometry
are stated for the interpretation of that record by the real functions
(`IsRealMath`).  A JavaScript number that is not finite (`NaN`, `Infinity`,
`-Infinity`) is `none` in an `Option α`; the two operations of the program
that can leave the finite numbers are the division by a variable (`jsDiv`)
and the square root of a variable (`jsSqrt`).
-/

namespace TagCloud

/-! ## The `Math` object and partial arithmetic -/

/-- The functions and the constant of the JavaScript `Math` object that the
program calls, on finite arguments. -/
structure JSMath (α : Type) where
  /-- The constant `Math.PI`. -/
  PI : α
  /-- The function `Math.sqrt`, on a non-negative argument. -/
  sqrt : α → α
  /-- The function `Math.sin`. -/
  sin : α → α
  /-- The function `Math.cos`. -/
  cos : α → α
  /-- The function `Math.atan2(y, x)`. -/
  atan2 : α → α → α
  /-- The function `Math.log`, on a positive argument. -/
  log : α → α

/-- The interpretation of `Math` by the real functions.  `Math.atan2(y, x)` is
the argument of `x + y i` in `(-π, π]`, which is `0` at `(0, 0)` as in
JavaScript. -/
def IsRealMath (M : JSMath ℝ) : Prop :=
  M.PI = Real.pi ∧ M.sqrt = Real.sqrt ∧ M.sin = Real.sin ∧ M.cos = Real.cos ∧
    (∀ y x : ℝ, M.atan2 y x = Complex.arg ⟨x, y⟩) ∧ M.log = Real.log

/-- JavaScript `a / b` for finite `a` and `b`: the quotient when `b` is not
zero, and a non-finite value (`NaN` for `0 / 0`, an infinity otherwise) when
`b` is zero. -/
def jsDiv {α : Type} [LinearOrderedField α] (a b : α) : Option α :=
  if b = 0 then none else some (a / b)

/-- JavaScript `Math.sqrt(x)` for finite `x`: `NaN` on a negative argument. -/
def jsSqrt {α : Type} [LinearOrderedField α] (M : JSMath α) (x : α) : Option α :=
  if x < 0 then none else some (M.sqrt x)

/-! ## `class FibonacciSphere` -/

/-- A stored point `[x, y, z]`; each coordinate is a JavaScript number. -/
abbrev Point (α : Type) := Option α × Option α × Option α

/-- The constant `goldenAngle = Math.PI * (3 - Math.sqrt(5))`. -/
def goldenAngle {α : Type} [LinearOrderedField α] (M : JSMath α) : α :=
  M.PI * (3 - M.sqrt 5)

/-- The value `1 - (i / (N - 1)) * 2` of `y` at index `i`, when `N - 1` is not
zero. -/
def yAt {α : Type} [LinearOrderedField α] (N i : ℕ) : α :=
  1 - (i : α) / ((N : α) - 1) * 2

/-- The body of the loop of the constructor at index `i`: the point pushed. -/
def FibonacciSphere.point {α : Type} [LinearOrderedField α] (M : JSMath α)
    (N i : ℕ) : Point α :=
  let y : Option α := (jsDiv (i : α) ((N : α) - 1)).map (fun q => 1 - q * 2)
  let radius : Option α := y.bind (fun y => jsSqrt M (1 - y ^ 2))
  let a : α := goldenAngle M * (i : α)
  let x : Option α := radius.map (fun r => M.cos a * r)
  let z : Option α := radius.map (fun r => M.sin a * r)
  (x, y, z)

/-- The array `#points` after `new FibonacciSphere(N)`: the loop
`for (let i = 0; i < N; i++)` pushes one point per index. -/
def FibonacciSphere {α : Type} [LinearOrderedField α] (M : JSMath α) (N : ℕ) :
    List (Point α) :=
  (List.range N).map (FibonacciSphere.point M N)

/-- The point of index `i` as section 4.1 of the specification words it: the
denominator `N - 1` is taken as `1` when `N = 1`, `y = 1 - (i / (N-1)) * 2`,
`radius = sqrt(max(0, 1 - y²))`, `angle = i * goldenAngle`, and the point is
`(cos(angle) * radius, y, sin(angle) * radius)`. -/
def specPoint {α : Type} [LinearOrderedField α] (M : JSMath α) (N i : ℕ) : α × α × α :=
  let denominator : α := if N = 1 then 1 else (N : α) - 1
  let y : α := 1 - ((i : α) / denominator) * 2
  let radius : α := M.sqrt (max 0 (1 - y ^ 2))
  let angle : α := (i : α) * goldenAngle M
  (M.cos angle * radius, y, M.sin angle * radius)

/-- The generator `generate(N)` of section 4.1 of the specification: the
ordered sequence of the `N` points of indices `0 .. N-1`. -/
def specGenerate {α : Type} [LinearOrderedField α] (M : JSMath α) (N : ℕ) :
    List (α × α × α) :=
  (List.range N).map (specPoint M N)

/-- A vector of finite numbers, as a stored point. -/
def Point.ofFinite {α : Type} (p : α × α × α) : Point α :=
  (some p.1, some p.2.1, some p.2.2)

/-! ## `class TagsCloud`: the per-tick transform -/

/-- A vector `[x, y, z]` of finite numbers. -/
abbrev Vec3 (α : Type) := α × α × α

/-- The array of three rows `rotationMatrix` built at the top of
`#updatePositions`, from the axis and from `Math.sin` and `Math.cos` of the
angle. -/
def rotationMatrix {α : Type} [LinearOrderedField α] (M : JSMath α)
    (rotationAxis : Vec3 α) (rotationAngle : α) : Vec3 α × Vec3 α × Vec3 α :=
  let sin := M.sin rotationAngle
  let cos := M.cos rotationAngle
  let ux := rotationAxis.1
  let uy := rotationAxis.2.1
  let uz := rotationAxis.2.2
  ((cos + ux ^ 2 * (1 - cos),
    ux * uy * (1 - cos) - uz * sin,
    ux * uz * (1 - cos) + uy * sin),
   (uy * ux * (1 - cos) + uz * sin,
    cos + uy ^ 2 * (1 - cos),
    uy * uz * (1 - cos) - ux * sin),
   (uz * ux * (1 - cos) - uy * sin,
    uz * uy * (1 - cos) + ux * sin,
    cos + uz ^ 2 * (1 - cos)))

/-- The triple `(transformedX, transformedY, transformedZ)` computed in the
loop of `#updatePositions` from the matrix and the point `[x, y, z]`. -/
def transformed {α : Type} [LinearOrderedField α]
    (rotationMatrix : Vec3 α × Vec3 α × Vec3 α) (p : Vec3 α) : Vec3 α :=
  let x := p.1
  let y := p.2.1
  let z := p.2.2
  (rotationMatrix.1.1 * x + rotationMatrix.1.2.1 * y + rotationMatrix.1.2.2 * z,
   rotationMatrix.2.1.1 * x + rotationMatrix.2.1.2.1 * y + rotationMatrix.2.1.2.2 * z,
   rotationMatrix.2.2.1 * x + rotationMatrix.2.2.2.1 * y + rotationMatrix.2.2.2.2 * z)

/-- The bound `maxX = (containerWidth - tagRect.width) / 2` (and `maxY`, with
the heights). -/
def maxOffset {α : Type} [LinearOrderedField α] (containerDim tagDim : α) : α :=
  (containerDim - tagDim) / 2

/-- The clamping `Math.max(-maxX, Math.min(translateX, maxX))`. -/
def clampTranslate {α : Type} [LinearOrderedField α] (translate maxX : α) : α :=
  max (-maxX) (min translate maxX)

/-- The value `depthScale = (transformedZ + 2) / 3`. -/
def depthScale {α : Type} [LinearOrderedField α] (transformedZ : α) : α :=
  (transformedZ + 2) / 3

/-- The value `opacity = (transformedZ + 1.5) / 2.5`. -/
def opacity {α : Type} [LinearOrderedField α] (transformedZ : α) : α :=
  (transformedZ + 1.5) / 2.5

/-- The readings `width` and `height` of `getBoundingClientRect()` of a tag. -/
structure TagRect (α : Type) where
  width : α
  height : α

/-- What the loop of `#updatePositions` writes to the style of a tag: the
two translations and the scale of `transform`, and `opacity`. -/
structure TagStyle (α : Type) where
  translateX : α
  translateY : α
  combinedScale : α
  opacity : α

/-- The body of the loop of `#updatePositions` for one tag, on finite numbers:
`p` is the point of the tag, `containerWidth` and `containerHeight` are the
`offsetWidth` and `offsetHeight` of the root, `lengthScale` is
`parseFloat(dataset.size)`. -/
def tagStyle {α : Type} [LinearOrderedField α] (M : JSMath α) (size : α)
    (rotationAxis : Vec3 α) (rotationAngle : α) (containerWidth containerHeight : α)
    (p : Vec3 α) (tagRect : TagRect α) (lengthScale : α) : TagStyle α :=
  let t := transformed (rotationMatrix M rotationAxis rotationAngle) p
  let translateX := size * t.1 * 0.35
  let translateY := size * t.2.1 * 0.35
  let maxX := maxOffset containerWidth tagRect.width
  let maxY := maxOffset containerHeight tagRect.height
  { translateX := clampTranslate translateX maxX
    translateY := clampTranslate translateY maxY
    combinedScale := depthScale t.2.2 * lengthScale
    opacity := opacity t.2.2 }

/-! ## `class TagsCloud`: the orientation state and its handlers -/

/-- The readings of the root element: `offsetWidth`, `offsetHeight` and the
`left` and `top` of `getBoundingClientRect()`. -/
structure Root (α : Type) where
  offsetWidth : α
  offsetHeight : α
  left : α
  top : α

/-- The readings `window.innerWidth` and `window.innerHeight`. -/
structure Window (α : Type) where
  innerWidth : α
  innerHeight : α

/-- The coordinates `clientX`, `clientY` of a mouse event, or of the first
touch `e.touches[0]` of a `touchmove` event (the list `touches` of a
`touchmove` event holds the moving contact, so it has a first element). -/
structure Pointer (α : Type) where
  clientX : α
  clientY : α

/-- The private fields of a `TagsCloud` that hold numbers: `#size`, the points
of `#sphere`, `#rotationAxis`, `#rotationAngle`, `#rotationSpeed`,
`#autoRotate` and `#idleTime`.  (`#root` and `#tags` are handles on the page,
read through `Root` and the tag readings; `#frameRequestId` is the handle of the
scheduled frame.) -/
structure TagsCloud (α : Type) where
  size : α
  sphere : List (Point α)
  rotationAxis : Vec3 α
  rotationAngle : Option α
  rotationSpeed : Option α
  autoRotate : Bool
  idleTime : α

/-- JavaScript `a + b` on numbers that may be non-finite; in this program a
non-finite summand gives a non-finite sum. -/
def jsAdd {α : Type} [LinearOrderedField α] (a b : Option α) : Option α :=
  a.bind (fun x => b.map (fun y => x + y))

/-- The method `#updateSize`: `Math.min(offsetWidth, offsetHeight) * 0.9`. -/
def TagsCloud.updateSize {α : Type} [LinearOrderedField α] (s : TagsCloud α)
    (root : Root α) : TagsCloud α :=
  { s with size := min root.offsetWidth root.offsetHeight * 0.9 }

/-- The state at the end of `new TagsCloud(root)`, for a root with `N` tags.
(`#normalizeFontSizes` and `#updatePositions` write to the page only.) -/
def TagsCloud.new {α : Type} [LinearOrderedField α] (M : JSMath α)
    (root : Root α) (N : ℕ) : TagsCloud α :=
  { size := min root.offsetWidth root.offsetHeight * 0.9
    sphere := FibonacciSphere M N
    rotationAxis := (1, 0, 0)
    rotationAngle := some 0
    rotationSpeed := some 0
    autoRotate := true
    idleTime := 0 }

/-- The method `#onMouseMove(e)`. -/
def TagsCloud.onMouseMove {α : Type} [LinearOrderedField α] (M : JSMath α)
    (s : TagsCloud α) (e : Pointer α) (root : Root α) (window : Window α) :
    TagsCloud α :=
  let deltaX := e.clientX - (root.left + root.offsetWidth / 2)
  let deltaY := e.clientY - (root.top + root.offsetHeight / 2)
  let a := M.atan2 deltaX deltaY - M.PI / 2
  let axis : Vec3 α := (M.sin a, M.cos a, 0)
  let delta := M.sqrt (deltaX ^ 2 + deltaY ^ 2)
  let speed := (jsDiv delta (max window.innerHeight window.innerWidth)).map
    (fun q => q / 20)
  { s with autoRotate := false, idleTime := 0, rotationAxis := axis,
           rotationSpeed := speed }

/-- The method `#onTouchMove(e)`, with `touch = e.touches[0]`. -/
def TagsCloud.onTouchMove {α : Type} [LinearOrderedField α] (M : JSMath α)
    (s : TagsCloud α) (touch : Pointer α) (root : Root α) (window : Window α) :
    TagsCloud α :=
  let deltaX := touch.clientX - (root.left + root.offsetWidth / 2)
  let deltaY := touch.clientY - (root.top + root.offsetHeight / 2)
  let a := M.atan2 deltaX deltaY - M.PI / 2
  let axis : Vec3 α := (M.sin a, M.cos a, 0)
  let delta := M.sqrt (deltaX ^ 2 + deltaY ^ 2)
  let speed := (jsDiv delta (max window.innerHeight window.innerWidth)).map
    (fun q => q / 20)
  { s with autoRotate := false, idleTime := 0, rotationAxis := axis,
           rotationSpeed := speed }

/-- The axis that the idle branch of `#update` stores at idle time `t`. -/
def idleAxis {α : Type} [LinearOrderedField α] (M : JSMath α) (t : α) : Vec3 α :=
  (M.sin (t * 0.5) * 0.5, M.cos (t * 0.3) * 0.5, M.sin (t * 0.2) * 0.5)

/-- The method `#update`, one tick: the state it leaves.  (The call of
`#updatePositions` writes to the page and `requestAnimationFrame` schedules
the next tick.)  The sum `#idleTime + 0.016` is exact here;
`TagsCloud.updateDouble` is the same tick with the sum rounded as the doubles
of the program round it, which decides on which tick the idle timer first
exceeds `2`. -/
def TagsCloud.update {α : Type} [LinearOrderedField α] (M : JSMath α)
    (s : TagsCloud α) : TagsCloud α :=
  let s1 := { s with rotationAngle := jsAdd s.rotationAngle s.rotationSpeed }
  if s1.autoRotate then
    let s2 := { s1 with idleTime := s1.idleTime + 0.016 }
    if s2.idleTime > 2 then
      { s2 with rotationSpeed := some 0.005, rotationAxis := idleAxis M s2.idleTime }
    else s2
  else s1

/-- What the page can deliver to a `TagsCloud`: an animation frame, a
`mousemove`, a `touchmove` (its first touch), a `resize` or
`orientationchange`; each with the readings of the page at that moment. -/
inductive Event (α : Type) where
  | tick : Event α
  | mousemove (e : Pointer α) (root : Root α) (window : Window α) : Event α
  | touchmove (touch : Pointer α) (root : Root α) (window : Window α) : Event α
  | resize (root : Root α) : Event α

/-- An event that is no pointer input: a tick or a resize. -/
def Event.isPassive {α : Type} : Event α → Prop
  | .tick => True
  | .mousemove _ _ _ => False
  | .touchmove _ _ _ => False
  | .resize _ => True

/-- The handler that the constructor registered for the event. -/
def TagsCloud.handle {α : Type} [LinearOrderedField α] (M : JSMath α)
    (s : TagsCloud α) : Event α → TagsCloud α
  | .tick => s.update M
  | .mousemove e root window => s.onMouseMove M e root window
  | .touchmove touch root window => s.onTouchMove M touch root window
  | .resize root => s.updateSize root

/-- The state after a sequence of events, handled one after the other (the
page is single-threaded). -/
def TagsCloud.run {α : Type} [LinearOrderedField α] (M : JSMath α)
    (s : TagsCloud α) (events : List (Event α)) : TagsCloud α :=
  events.foldl (fun t ev => t.handle M ev) s

/-- A state the engine can be in: constructed, then any sequence of events. -/
def Reachable {α : Type} [LinearOrderedField α] (M : JSMath α) (s : TagsCloud α) :
    Prop :=
  ∃ (root : Root α) (N : ℕ) (events : List (Event α)),
    s = (TagsCloud.new M root N).run M events

/-- The squared length of a vector. -/
def normSq {α : Type} [LinearOrderedField α] (v : Vec3 α) : α :=
  v.1 ^ 2 + v.2.1 ^ 2 + v.2.2 ^ 2

/-- The invariant of the orientation: either the idle tumble is in effect
(`#autoRotate` set and `#idleTime > 2`) and the axis is the idle axis of the
idle time, or the axis is a unit vector. -/
def AxisInv {α : Type} [LinearOrderedField α] (M : JSMath α) (s : TagsCloud α) : Prop :=
  (s.autoRotate = true ∧ 2 < s.idleTime ∧ s.rotationAxis = idleAxis M s.idleTime) ∨
    (¬ (s.autoRotate = true ∧ 2 < s.idleTime) ∧ normSq s.rotationAxis = 1)

/-! ## The idle timer in double precision

The program adds two kinds of doubles to each other: the idle timer and the
literal `0.016`.  Each is `0` or at least `2^-6`, so each is a whole number of
units of `2^-58` (a double in `[2^e, 2^(e+1))` is a multiple of `2^(e-52)`), and
it is kept here as that number of units.  The sum of two such doubles is exact
in units and is then rounded to 53 significant bits, to the nearest, ties to
even.  (The timer never comes near the overflow threshold.) -/

/-- The number of units of `2^-58` in `1`. -/
def Double.scale : ℕ := 2 ^ 58

/-- The number of low bits of `n` beyond its 53 leading ones: `n` is halved
until it is below `2^53` (`fuel` bounds the number of halvings; `n` itself is
enough). -/
def Double.shift : ℕ → ℕ → ℕ
  | 0, _ => 0
  | fuel + 1, n => if n < 2 ^ 53 then 0 else Double.shift fuel (n / 2) + 1

/-- Rounding to the nearest double, ties to even: `n` units are rounded to a
multiple of `ulp = 2^shift`, which leaves 53 significant bits (`ulp` is `1`, and
nothing is rounded, when `n` has at most 53 bits). -/
def Double.round (n : ℕ) : ℕ :=
  let ulp := 2 ^ Double.shift n n
  let q := n / ulp
  let r := n % ulp
  if 2 * r < ulp then q * ulp
  else if ulp < 2 * r then (q + 1) * ulp
  else if q % 2 = 0 then q * ulp else (q + 1) * ulp

/-- The double that a decimal literal of value `num / den` denotes, for a
value of at least `2^-6`: the nearest double, ties to even, in units. -/
def Double.ofFraction (num den : ℕ) : ℕ :=
  let scaled := num * Double.scale
  let ulp := 2 ^ Double.shift (scaled / den) (scaled / den)
  let q := scaled / (den * ulp)
  let r := scaled % (den * ulp)
  if 2 * r < den * ulp then q * ulp
  else if den * ulp < 2 * r then (q + 1) * ulp
  else if q % 2 = 0 then q * ulp else (q + 1) * ulp

/-- The number whose double holds `n` units. -/
def Double.toField {α : Type} [LinearOrderedField α] (n : ℕ) : α :=
  (n : α) / (Double.scale : α)

/-- The units in a non-negative number (all of it, when it is a whole number
of units). -/
def Double.fromField {α : Type} [LinearOrderedField α] [FloorRing α] (x : α) : ℕ :=
  ⌊x * (Double.scale : α)⌋₊

/-- JavaScript `a + b` on two finite non-negative doubles: their exact sum,
rounded. -/
def Double.add {α : Type} [LinearOrderedField α] [FloorRing α] (a b : α) : α :=
  Double.toField (Double.round (Double.fromField (a + b)))

/-- The double of the literal `0.016`, in units. -/
def Double.frameBudget : ℕ := Double.ofFraction 16 1000

/-- The method `#update`, one tick, with `this.#idleTime += 0.016` computed as
the program computes it, in doubles: the literal `0.016` is its nearest double
and the sum is rounded.  The rest is as in `TagsCloud.update`. -/
def TagsCloud.updateDouble {α : Type} [LinearOrderedField α] [FloorRing α]
    (M : JSMath α) (s : TagsCloud α) : TagsCloud α :=
  let s1 := { s with rotationAngle := jsAdd s.rotationAngle s.rotationSpeed }
  if s1.autoRotate then
    let s2 := { s1 with
      idleTime := Double.add s1.idleTime (Double.toField Double.frameBudget) }
    if s2.idleTime > 2 then
      { s2 with rotationSpeed := some 0.005, rotationAxis := idleAxis M s2.idleTime }
    else s2
  else s1

/-- The state after `k` ticks and no other event, the idle timer in doubles. -/
def TagsCloud.ticksDouble {α : Type} [LinearOrderedField α] [FloorRing α]
    (M : JSMath α) (s : TagsCloud α) : ℕ → TagsCloud α
  | 0 => s
  | k + 1 => (TagsCloud.ticksDouble M s k).updateDouble M

/-- The double `#idleTime` after `k` ticks from `0`, in units. -/
def idleUnits : ℕ → ℕ
  | 0 => 0
  | k + 1 => Double.round (idleUnits k + Double.frameBudget)

/-- A number of units that is a double: at most 53 significant bits. -/
def Double.Representable (a : ℕ) : Prop :=
  ∃ m j : ℕ, a = m * 2 ^ j ∧ m < 2 ^ 53

/-! ## `#updatePositions` on the whole list of tags -/

/-- What `#updatePositions` reads of one tag: its `getBoundingClientRect()`
and `parseFloat(dataset.size)`, which is `NaN` when the stored text is no
number. -/
structure Tag (α : Type) where
  rect : TagRect α
  size : Option α

/-- The body of the loop of `#updatePositions` for the tag of index `i`, with
the JavaScript numbers of the state: a non-finite angle or coordinate of the
point makes the three transformed coordinates `NaN`, and with them both
translations (`Math.min` and `Math.max` of `NaN` are `NaN`), the scale and the
opacity; a non-finite `lengthScale` makes the scale `NaN`. -/
def updatePositions.item {α : Type} [LinearOrderedField α] (M : JSMath α)
    (s : TagsCloud α) (root : Root α) (p : Point α) (tag : Tag α) :
    TagStyle (Option α) :=
  match s.rotationAngle, p with
  | some θ, (some x, some y, some z) =>
    let t := transformed (rotationMatrix M s.rotationAxis θ) (x, y, z)
    { translateX := some (clampTranslate (s.size * t.1 * 0.35)
        (maxOffset root.offsetWidth tag.rect.width))
      translateY := some (clampTranslate (s.size * t.2.1 * 0.35)
        (maxOffset root.offsetHeight tag.rect.height))
      combinedScale := tag.size.map (fun lengthScale => depthScale t.2.2 * lengthScale)
      opacity := some (opacity t.2.2) }
  | _, _ => { translateX := none, translateY := none, combinedScale := none,
              opacity := none }

/-- The method `#updatePositions`: the styles it writes, tag by tag; the tag
of index `i` is paired with the point of index `i` (the sphere was built with
`#tags.length` points). -/
def updatePositions {α : Type} [LinearOrderedField α] (M : JSMath α)
    (s : TagsCloud α) (root : Root α) (tags : List (Tag α)) :
    List (TagStyle (Option α)) :=
  List.zipWith (updatePositions.item M s root) s.sphere tags

/-! ## `#normalizeFontSizes` -/

/-- The number that `x.toFixed(2)` writes and `parseFloat` reads back, for
`x ≥ 0`: the multiple `n / 100` nearest to `x`, the larger `n` on a tie. -/
def toFixed2 {α : Type} [LinearOrderedField α] [FloorRing α] (x : α) : α :=
  ((⌊x * 100 + 1 / 2⌋ : ℤ) : α) / 100

/-- The value `scaleFactor` of `#normalizeFontSizes` for a tag of trimmed text
length `length`, before `toFixed(2)`; non-finite when `Math.log(maxLength + 1)`
is zero. -/
def scaleFactor {α : Type} [LinearOrderedField α] (M : JSMath α)
    (maxLength length : ℕ) : Option α :=
  (jsDiv (M.log ((length : α) + 1)) (M.log ((maxLength : α) + 1))).map
    (fun q => max (1.5 - q) 0.8)

/-- The method `#normalizeFontSizes`, on the lengths
`tag.textContent.trim().length` of the tags: what `parseFloat(dataset.size)`
reads afterwards for each tag.  `maxLength = Math.max(...lengths)`; the fold
from `0` is that maximum for a non-empty list of lengths, and for no tag the
loop does not run. -/
def normalizeFontSizes {α : Type} [LinearOrderedField α] [FloorRing α] (M : JSMath α)
    (lengths : List ℕ) : List (Option α) :=
  let maxLength : ℕ := lengths.foldl max 0
  lengths.map (fun length => (scaleFactor M maxLength length).map toFixed2)

/-! ## `extractCloudWords` -/

/-- A JavaScript string: its sequence of UTF-16 code units. -/
abbrev JSString := List ℕ

/-- The code unit of the cloud marker, U+2601. -/
def cloudMarker : ℕ := 0x2601

/-- The class `\s` of a regular expression, which is also what `trim()`
strips: white space and line terminators. -/
def isWhiteSpace (c : ℕ) : Bool :=
  c == 0x09 || c == 0x0A || c == 0x0B || c == 0x0C || c == 0x0D || c == 0x20 ||
  c == 0xA0 || c == 0x1680 || (0x2000 ≤ c && c ≤ 0x200A) || c == 0x2028 ||
  c == 0x2029 || c == 0x202F || c == 0x205F || c == 0x3000 || c == 0xFEFF

/-- The class `\w`: the ASCII letters, the digits and the underscore (the
flag `i` adds nothing to the class without the flag `u`). -/
def isWordChar (c : ℕ) : Bool :=
  (0x30 ≤ c && c ≤ 0x39) || (0x41 ≤ c && c ≤ 0x5A) || c == 0x5F ||
  (0x61 ≤ c && c ≤ 0x7A)

/-- The range `\u0600-\u06FF`. -/
def isArabic (c : ℕ) : Bool := 0x0600 ≤ c && c ≤ 0x06FF

/-- The test `message.startsWith('☁')`. -/
def startsWithCloud : JSString → Bool
  | [] => false
  | c :: _ => c == cloudMarker

/-- The first replacement, of the pattern `^☁\s*` by the empty string. -/
def removeMarker : JSString → JSString
  | [] => []
  | c :: rest => if c == cloudMarker then rest.dropWhile isWhiteSpace else c :: rest

/-- The second replacement: every code unit outside `\w`, `\s` and the
Arabic range is removed. -/
def removeOther (m : JSString) : JSString :=
  m.filter (fun c => isWordChar c || isWhiteSpace c || isArabic c)

/-- The method `trim()`. -/
def trim (m : JSString) : JSString :=
  ((m.dropWhile isWhiteSpace).reverse.dropWhile isWhiteSpace).reverse

/-- The value `cleanMessage` computed from a message. -/
def cleanMessage (message : JSString) : JSString :=
  trim (removeOther (removeMarker message))

/-- The test of the outer `if`: the message starts with the marker and is
longer than `2`. -/
def isCloudMessage (message : JSString) : Bool :=
  startsWithCloud message && decide (message.length > 2)

/-- The body of the `forEach` of `extractCloudWords`, on the pair of
`cloudWords` and `seenWords`. -/
def extractStep (st : List JSString × List JSString) (message : JSString) :
    List JSString × List JSString :=
  if isCloudMessage message then
    if cleanMessage message ≠ [] ∧ cleanMessage message ∉ st.2 then
      (st.1 ++ [cleanMessage message], cleanMessage message :: st.2)
    else st
  else st

/-- The function `extractCloudWords`, on the `message` of each entry. -/
def extractCloudWords (messages : List JSString) : List JSString :=
  (messages.foldl extractStep ([], [])).1

/-- The candidate words of a list of messages, in the order of the messages:
the non-empty cleaned forms of the messages that pass the outer test. -/
def cloudCandidates (messages : List JSString) : List JSString :=
  ((messages.filter isCloudMessage).map cleanMessage).filter (fun w => decide (w ≠ []))

/-- The position of the first occurrence of `w` in `l` (the length of `l` when
there is none). -/
def firstIndexOf (w : JSString) : List JSString → ℕ
  | [] => 0
  | a :: l => if a = w then 0 else firstIndexOf w l + 1

/-! ## The point generator -/

section Generator

variable {α : Type} [LinearOrderedField α]

theorem yAt_le_one (N i : ℕ) (hN : 2 ≤ N) : (yAt N i : α) ≤ 1 := by
  have hN1 : (0 : α) < (N : α) - 1 := by
    have : (2 : α) ≤ (N : α) := by exact_mod_cast hN
    linarith
  have hq : (0 : α) ≤ (i : α) / ((N : α) - 1) :=
    div_nonneg (Nat.cast_nonneg i) hN1.le
  unfold yAt
  linarith

theorem neg_one_le_yAt (N i : ℕ) (hi : i < N) : (-1 : α) ≤ yAt N i := by
  have hN1 : (0 : α) < (N : α) - 1 ∨ (N : α) - 1 = 0 := by
    have : (1 : α) ≤ (N : α) := by exact_mod_cast (Nat.succ_le_of_lt (Nat.lt_of_le_of_lt (Nat.zero_le i) hi))
    rcases this.lt_or_eq with h | h
    · left; linarith
    · right; linarith
  unfold yAt
  rcases hN1 with h | h
  · have hle : (i : α) ≤ (N : α) - 1 := by
      have : i + 1 ≤ N := hi
      have : ((i : α) + 1) ≤ (N : α) := by exact_mod_cast this
      linarith
    have hq : (i : α) / ((N : α) - 1) ≤ 1 := (div_le_one h).2 hle
    linarith
  · rw [h, div_zero]; norm_num

theorem yAt_sq_le_one (N i : ℕ) (hN : 2 ≤ N) (hi : i < N) :
    (0 : α) ≤ 1 - (yAt N i : α) ^ 2 := by
  have h1 := yAt_le_one (α := α) N i hN
  have h2 := neg_one_le_yAt (α := α) N i hi
  nlinarith

/-- For `N ≥ 2` every coordinate of every point is finite, with the values of
the source's formulas. -/
theorem point_eq (M : JSMath α) (N i : ℕ) (hN : 2 ≤ N) (hi : i < N) :
    FibonacciSphere.point M N i =
      (some (M.cos (goldenAngle M * (i : α)) * M.sqrt (1 - (yAt N i : α) ^ 2)),
       some (yAt N i),
       some (M.sin (goldenAngle M * (i : α)) * M.sqrt (1 - (yAt N i : α) ^ 2))) := by
  have hN1 : (N : α) - 1 ≠ 0 := by
    have : (2 : α) ≤ (N : α) := by exact_mod_cast hN
    intro h
    linarith
  have hs : ¬ (1 - (yAt N i : α) ^ 2 < 0) := not_lt.2 (yAt_sq_le_one N i hN hi)
  unfold yAt at hs
  simp only [FibonacciSphere.point, jsDiv, jsSqrt, yAt, if_neg hN1, if_neg hs,
    Option.map_some', Option.some_bind]

theorem getElem?_FibonacciSphere (M : JSMath α) (N i : ℕ) (hi : i < N) :
    (FibonacciSphere M N)[i]? = some (FibonacciSphere.point M N i) := by
  simp [FibonacciSphere, List.getElem?_range hi]

theorem isRealMath_mk :
    IsRealMath (JSMath.mk Real.pi Real.sqrt Real.sin Real.cos
      (fun y x => Complex.arg ⟨x, y⟩) Real.log) :=
  ⟨rfl, rfl, rfl, rfl, fun _ _ => rfl, rfl⟩

/-- C1: for every `N ≥ 2` and every index `i < N`, the point stored at index
`i` by the constructor of `FibonacciSphere` has three finite coordinates
`(x, y, z)` with `y = 1 - 2 i / (N - 1)`, `x = cos(goldenAngle i) sqrt(1 - y²)`,
`z = sin(goldenAngle i) sqrt(1 - y²)`, and `x² + y² + z² = 1` exactly over the
reals, hence within every tolerance `ε > 0`. -/
theorem FibonacciSphere_point_unit (M : JSMath ℝ) (hM : IsRealMath M) (N i : ℕ)
    (hN : 2 ≤ N) (hi : i < N) :
    ∃ x y z : ℝ, (FibonacciSphere M N)[i]? = some (some x, some y, some z) ∧
      y = 1 - 2 * (i : ℝ) / ((N : ℝ) - 1) ∧
      x = Real.cos (Real.pi * (3 - Real.sqrt 5) * (i : ℝ)) * Real.sqrt (1 - y ^ 2) ∧
      z = Real.sin (Real.pi * (3 - Real.sqrt 5) * (i : ℝ)) * Real.sqrt (1 - y ^ 2) ∧
      x ^ 2 + y ^ 2 + z ^ 2 = 1 ∧
      ∀ ε : ℝ, 0 < ε → |x ^ 2 + y ^ 2 + z ^ 2 - 1| < ε := by
  obtain ⟨hpi, hsqrt, hsin, hcos, -, -⟩ := hM
  have hy : (yAt N i : ℝ) = 1 - 2 * (i : ℝ) / ((N : ℝ) - 1) := by
    unfold yAt; ring
  have hr : Real.sqrt (1 - (yAt N i : ℝ) ^ 2) ^ 2 = 1 - (yAt N i : ℝ) ^ 2 :=
    Real.sq_sqrt (yAt_sq_le_one N i hN hi)
  have hnorm : (M.cos (goldenAngle M * (i : ℝ)) * M.sqrt (1 - (yAt N i : ℝ) ^ 2)) ^ 2
      + (yAt N i : ℝ) ^ 2
      + (M.sin (goldenAngle M * (i : ℝ)) * M.sqrt (1 - (yAt N i : ℝ) ^ 2)) ^ 2 = 1 := by
    rw [hsqrt, hsin, hcos]
    have hsc := Real.sin_sq_add_cos_sq (goldenAngle M * (i : ℝ))
    linear_combination
      (Real.sin (goldenAngle M * (i : ℝ)) ^ 2 + Real.cos (goldenAngle M * (i : ℝ)) ^ 2) * hr
        + (1 - (yAt N i : ℝ) ^ 2) * hsc
  refine ⟨_, _, _, ?_, hy, ?_, ?_, hnorm, ?_⟩
  · rw [getElem?_FibonacciSphere M N i hi, point_eq M N i hN hi]
  · simp only [goldenAngle, hpi, hsqrt, hcos]
  · simp only [goldenAngle, hpi, hsqrt, hsin]
  · intro ε hε
    rw [hnorm]
    simpa using hε

theorem FibonacciSphere_point_unit_witness :
    IsRealMath (JSMath.mk Real.pi Real.sqrt Real.sin Real.cos
        (fun y x => Complex.arg ⟨x, y⟩) Real.log) ∧ 2 ≤ 4 ∧ 1 < 4 ∧
      ∃ x y z : ℝ,
        (FibonacciSphere (JSMath.mk Real.pi Real.sqrt Real.sin Real.cos
          (fun y x => Complex.arg ⟨x, y⟩) Real.log) 4)[1]? = some (some x, some y, some z) ∧
        y = 1 - 2 * ((1 : ℕ) : ℝ) / (((4 : ℕ) : ℝ) - 1) ∧
        x = Real.cos (Real.pi * (3 - Real.sqrt 5) * ((1 : ℕ) : ℝ)) * Real.sqrt (1 - y ^ 2) ∧
        z = Real.sin (Real.pi * (3 - Real.sqrt 5) * ((1 : ℕ) : ℝ)) * Real.sqrt (1 - y ^ 2) ∧
        x ^ 2 + y ^ 2 + z ^ 2 = 1 ∧
        ∀ ε : ℝ, 0 < ε → |x ^ 2 + y ^ 2 + z ^ 2 - 1| < ε :=
  ⟨isRealMath_mk, by decide, by decide,
    FibonacciSphere_point_unit _ isRealMath_mk 4 1 (by decide) (by decide)⟩

/-- C2, the code at `N = 1`: the constructor stores one point, and each of its
three coordinates is non-finite (`0 / 0` is `NaN`, and `NaN` goes through
`1 - NaN * 2`, `Math.sqrt` and the two products); its `y` is not `1`. -/
theorem FibonacciSphere_one (M : JSMath α) :
    FibonacciSphere M 1 = [(none, none, none)] := by
  simp [FibonacciSphere, FibonacciSphere.point, jsDiv, List.range_succ]

theorem yAt_sub_succ (N i : ℕ) :
    (yAt N i : α) - yAt N (i + 1) = 2 / ((N : α) - 1) := by
  unfold yAt
  push_cast
  ring

theorem yAt_lt_of_lt (N i j : ℕ) (hN : 2 ≤ N) (hij : i < j) :
    (yAt N j : α) < yAt N i := by
  have hN1 : (0 : α) < (N : α) - 1 := by
    have : (2 : α) ≤ (N : α) := by exact_mod_cast hN
    linarith
  have hc : (i : α) < (j : α) := by exact_mod_cast hij
  have hq : (i : α) / ((N : α) - 1) < (j : α) / ((N : α) - 1) :=
    div_lt_div_of_pos_right hc hN1
  unfold yAt
  linarith

/-- C10: for every `N ≥ 2` the point stored at index `i < N` has the finite
`y`-coordinate `yAt N i = 1 - (i / (N - 1)) * 2`; these start at `1` for index
`0`, end at `-1` for index `N - 1`, drop by exactly `2 / (N - 1)` from an index
to the next and are strictly decreasing in the index; so two stored points
with different indices (consecutive ones among them) are never equal. -/
theorem FibonacciSphere_y_strictly_decreasing (M : JSMath α) (N : ℕ) (hN : 2 ≤ N) :
    (∀ i, i < N → ∃ x z : Option α,
        (FibonacciSphere M N)[i]? = some (x, some (yAt N i), z)) ∧
      (yAt N 0 : α) = 1 ∧ (yAt N (N - 1) : α) = -1 ∧
      (∀ i, i + 1 < N → (yAt N i : α) - yAt N (i + 1) = 2 / ((N : α) - 1)) ∧
      (∀ i j, i < j → j < N → (yAt N j : α) < yAt N i) ∧
      (∀ i, i + 1 < N → (FibonacciSphere M N)[i]? ≠ (FibonacciSphere M N)[i + 1]?) ∧
      (∀ i j, i < N → j < N → i ≠ j →
        (FibonacciSphere M N)[i]? ≠ (FibonacciSphere M N)[j]?) := by
  have hN1 : (N : α) - 1 ≠ 0 := by
    have : (2 : α) ≤ (N : α) := by exact_mod_cast hN
    intro h
    linarith
  have hstored : ∀ i, i < N → ∃ x z : Option α,
      (FibonacciSphere M N)[i]? = some (x, some (yAt N i), z) := by
    intro i hi
    exact ⟨_, _, by rw [getElem?_FibonacciSphere M N i hi, point_eq M N i hN hi]⟩
  have hne : ∀ i j, i < N → j < N → i ≠ j →
      (FibonacciSphere M N)[i]? ≠ (FibonacciSphere M N)[j]? := by
    intro i j hi hj hij heq
    obtain ⟨xi, zi, hPi⟩ := hstored i hi
    obtain ⟨xj, zj, hPj⟩ := hstored j hj
    rw [hPi, hPj] at heq
    have hy : (yAt N i : α) = yAt N j := by
      have := congrArg (fun p : Option (Point α) => p.map (fun q => q.2.1)) heq
      simpa using this
    rcases Nat.lt_or_gt_of_ne hij with h | h
    · exact absurd hy (ne_of_gt (yAt_lt_of_lt N i j hN h))
    · exact absurd hy (ne_of_lt (yAt_lt_of_lt N j i hN h))
  refine ⟨hstored, ?_, ?_, ?_, ?_, ?_, hne⟩
  · simp [yAt]
  · have h1 : ((N - 1 : ℕ) : α) = (N : α) - 1 := by
      rw [Nat.cast_sub (by omega)]
      simp
    unfold yAt
    rw [h1, div_self hN1]
    norm_num
  · intro i _
    exact yAt_sub_succ N i
  · intro i j hij _
    exact yAt_lt_of_lt N i j hN hij
  · intro i hi
    exact hne i (i + 1) (by omega) hi (by omega)

theorem FibonacciSphere_y_strictly_decreasing_witness :
    2 ≤ 4 ∧
      ((∀ i, i < 4 → ∃ x z : Option ℝ,
        (FibonacciSphere (JSMath.mk Real.pi Real.sqrt Real.sin Real.cos
          (fun y x => Complex.arg ⟨x, y⟩) Real.log) 4)[i]? = some (x, some (yAt 4 i), z)) ∧
      (yAt 4 0 : ℝ) = 1 ∧ (yAt 4 (4 - 1) : ℝ) = -1 ∧
      (∀ i, i + 1 < 4 → (yAt 4 i : ℝ) - yAt 4 (i + 1) = 2 / (((4 : ℕ) : ℝ) - 1)) ∧
      (∀ i j, i < j → j < 4 → (yAt 4 j : ℝ) < yAt 4 i) ∧
      (∀ i, i + 1 < 4 →
        (FibonacciSphere (JSMath.mk Real.pi Real.sqrt Real.sin Real.cos
          (fun y x => Complex.arg ⟨x, y⟩) Real.log) 4)[i]? ≠
        (FibonacciSphere (JSMath.mk Real.pi Real.sqrt Real.sin Real.cos
          (fun y x => Complex.arg ⟨x, y⟩) Real.log) 4)[i + 1]?) ∧
      (∀ i j, i < 4 → j < 4 → i ≠ j →
        (FibonacciSphere (JSMath.mk Real.pi Real.sqrt Real.sin Real.cos
          (fun y x => Complex.arg ⟨x, y⟩) Real.log) 4)[i]? ≠
        (FibonacciSphere (JSMath.mk Real.pi Real.sqrt Real.sin Real.cos
          (fun y x => Complex.arg ⟨x, y⟩) Real.log) 4)[j]?)) :=
  ⟨by decide, FibonacciSphere_y_strictly_decreasing _ 4 (by decide)⟩

/-- C11: for every `N` the constructor stores exactly `N` points, the point of
index `i` at position `i` for `i = 0 .. N-1` and nothing beyond; `N = 0` gives
the empty array; and the array depends on `N` only. -/
theorem FibonacciSphere_length_order (M : JSMath α) (N : ℕ) :
    (FibonacciSphere M N).length = N ∧
      (∀ i, i < N → (FibonacciSphere M N)[i]? = some (FibonacciSphere.point M N i)) ∧
      (∀ i, N ≤ i → (FibonacciSphere M N)[i]? = none) ∧
      FibonacciSphere M 0 = [] ∧
      (∀ N₁ N₂ : ℕ, N₁ = N₂ → FibonacciSphere M N₁ = FibonacciSphere M N₂) := by
  refine ⟨by simp [FibonacciSphere], fun i hi => getElem?_FibonacciSphere M N i hi,
    ?_, rfl, ?_⟩
  · intro i hi
    apply List.getElem?_eq_none
    simpa [FibonacciSphere] using hi
  · intro N₁ N₂ h
    rw [h]

theorem specPoint_eq (M : JSMath α) (N i : ℕ) (hN : 2 ≤ N) (hi : i < N) :
    specPoint M N i =
      (M.cos (goldenAngle M * (i : α)) * M.sqrt (1 - (yAt N i : α) ^ 2),
       yAt N i,
       M.sin (goldenAngle M * (i : α)) * M.sqrt (1 - (yAt N i : α) ^ 2)) := by
  have hN1 : N ≠ 1 := by omega
  have hs : max 0 (1 - (yAt N i : α) ^ 2) = 1 - (yAt N i : α) ^ 2 :=
    max_eq_right (yAt_sq_le_one N i hN hi)
  unfold yAt at hs
  simp only [specPoint, if_neg hN1, hs, yAt, mul_comm (i : α) (goldenAngle M)]

/-- C18: for every `N ≥ 2` and every index `i < N` the argument `1 - y²` of the
square root of the constructor is non-negative, so its unguarded
`Math.sqrt(1 - y ** 2)` is finite and is the `sqrt(max(0, 1 - y²))` of the
specification, the point it pushes is the point of the specification, and the
two generators give the same sequence. -/
theorem FibonacciSphere_refines_specGenerate (M : JSMath α) (N : ℕ) (hN : 2 ≤ N) :
    (∀ i, i < N →
        0 ≤ 1 - (yAt N i : α) ^ 2 ∧
        jsSqrt M (1 - (yAt N i : α) ^ 2)
          = some (M.sqrt (max 0 (1 - (yAt N i : α) ^ 2))) ∧
        FibonacciSphere.point M N i = Point.ofFinite (specPoint M N i)) ∧
      FibonacciSphere M N = (specGenerate M N).map Point.ofFinite := by
  have hpt : ∀ i, i < N →
      FibonacciSphere.point M N i = Point.ofFinite (specPoint M N i) := by
    intro i hi
    rw [point_eq M N i hN hi, specPoint_eq M N i hN hi]
    rfl
  constructor
  · intro i hi
    have h0 := yAt_sq_le_one (α := α) N i hN hi
    refine ⟨h0, ?_, hpt i hi⟩
    rw [max_eq_right h0]
    simp only [jsSqrt, if_neg (not_lt.2 h0)]
  · simp only [FibonacciSphere, specGenerate, List.map_map]
    apply List.map_congr_left
    intro i hi
    exact hpt i (List.mem_range.1 hi)

theorem FibonacciSphere_refines_specGenerate_witness :
    2 ≤ 4 ∧
      FibonacciSphere (JSMath.mk Real.pi Real.sqrt Real.sin Real.cos
          (fun y x => Complex.arg ⟨x, y⟩) Real.log) 4
        = (specGenerate (JSMath.mk Real.pi Real.sqrt Real.sin Real.cos
          (fun y x => Complex.arg ⟨x, y⟩) Real.log) 4).map Point.ofFinite :=
  ⟨by decide, (FibonacciSphere_refines_specGenerate _ 4 (by decide)).2⟩

/-- For `N ≥ 2` the point of index `i < N` is finite and of length one. -/
theorem point_finite_unit (M : JSMath ℝ) (hM : IsRealMath M) (N i : ℕ)
    (hN : 2 ≤ N) (hi : i < N) :
    ∃ x y z : ℝ, FibonacciSphere.point M N i = (some x, some y, some z) ∧
      normSq (x, y, z) = 1 := by
  obtain ⟨-, hsqrt, hsin, hcos, -, -⟩ := hM
  refine ⟨_, _, _, point_eq M N i hN hi, ?_⟩
  have hr : Real.sqrt (1 - (yAt N i : ℝ) ^ 2) ^ 2 = 1 - (yAt N i : ℝ) ^ 2 :=
    Real.sq_sqrt (yAt_sq_le_one N i hN hi)
  have hsc := Real.sin_sq_add_cos_sq (goldenAngle M * (i : ℝ))
  simp only [normSq, hsqrt, hsin, hcos]
  linear_combination
    (Real.sin (goldenAngle M * (i : ℝ)) ^ 2 + Real.cos (goldenAngle M * (i : ℝ)) ^ 2) * hr
      + (1 - (yAt N i : ℝ) ^ 2) * hsc

end Generator

/-! ## The rotation matrix -/

section Rotation

/-- C3: for a unit axis, every angle `θ` and every point `p`, the matrix that
`#updatePositions` builds for `(axis, -θ)` applied to the image of `p` under
the matrix it builds for `(axis, θ)` gives `p` back. -/
theorem rotationMatrix_neg_angle_inverse (M : JSMath ℝ) (hM : IsRealMath M)
    (axis : Vec3 ℝ) (hunit : axis.1 ^ 2 + axis.2.1 ^ 2 + axis.2.2 ^ 2 = 1)
    (θ : ℝ) (p : Vec3 ℝ) :
    transformed (rotationMatrix M axis (-θ)) (transformed (rotationMatrix M axis θ) p)
      = p := by
  obtain ⟨-, -, hsin, hcos, -, -⟩ := hM
  obtain ⟨ux, uy, uz⟩ := axis
  obtain ⟨x, y, z⟩ := p
  have hsc := Real.sin_sq_add_cos_sq θ
  simp only [rotationMatrix, transformed, hsin, hcos, Real.sin_neg, Real.cos_neg] at hunit ⊢
  refine Prod.ext ?_ (Prod.ext ?_ ?_)
  · show _ = x
    linear_combination
      (x - (ux * x + uy * y + uz * z) * ux) * hsc
        + (Real.sin θ ^ 2 * x
            + (1 - Real.cos θ) ^ 2 * (ux * x + uy * y + uz * z) * ux) * hunit
  · show _ = y
    linear_combination
      (y - (ux * x + uy * y + uz * z) * uy) * hsc
        + (Real.sin θ ^ 2 * y
            + (1 - Real.cos θ) ^ 2 * (ux * x + uy * y + uz * z) * uy) * hunit
  · show _ = z
    linear_combination
      (z - (ux * x + uy * y + uz * z) * uz) * hsc
        + (Real.sin θ ^ 2 * z
            + (1 - Real.cos θ) ^ 2 * (ux * x + uy * y + uz * z) * uz) * hunit

theorem rotationMatrix_neg_angle_inverse_witness :
    IsRealMath (JSMath.mk Real.pi Real.sqrt Real.sin Real.cos
        (fun y x => Complex.arg ⟨x, y⟩) Real.log) ∧
      ((0 : ℝ), (1 : ℝ), (0 : ℝ)).1 ^ 2 + ((0 : ℝ), (1 : ℝ), (0 : ℝ)).2.1 ^ 2
        + ((0 : ℝ), (1 : ℝ), (0 : ℝ)).2.2 ^ 2 = 1 ∧
      transformed
        (rotationMatrix (JSMath.mk Real.pi Real.sqrt Real.sin Real.cos
          (fun y x => Complex.arg ⟨x, y⟩) Real.log) (0, 1, 0) (-(Real.pi / 3)))
        (transformed
          (rotationMatrix (JSMath.mk Real.pi Real.sqrt Real.sin Real.cos
            (fun y x => Complex.arg ⟨x, y⟩) Real.log) (0, 1, 0) (Real.pi / 3))
          (1, 2, 3))
        = (1, 2, 3) :=
  ⟨isRealMath_mk, by norm_num,
    rotationMatrix_neg_angle_inverse _ isRealMath_mk (0, 1, 0) (by norm_num)
      (Real.pi / 3) (1, 2, 3)⟩

/-- C4: for every axis, unit or not, the matrix that `#updatePositions` builds
for the angle `0` is the identity matrix, and the transformed point
`(transformedX, transformedY, transformedZ)` is the point `(x, y, z)`
itself. -/
theorem rotationMatrix_zero_angle (M : JSMath ℝ) (hM : IsRealMath M)
    (axis : Vec3 ℝ) (p : Vec3 ℝ) :
    rotationMatrix M axis 0 = ((1, 0, 0), (0, 1, 0), (0, 0, 1)) ∧
      transformed (rotationMatrix M axis 0) p = p := by
  obtain ⟨-, -, hsin, hcos, -, -⟩ := hM
  have hR : rotationMatrix M axis 0 = ((1, 0, 0), (0, 1, 0), (0, 0, 1)) := by
    simp [rotationMatrix, hsin, hcos]
  refine ⟨hR, ?_⟩
  rw [hR]
  simp [transformed]

theorem rotationMatrix_zero_angle_witness :
    IsRealMath (JSMath.mk Real.pi Real.sqrt Real.sin Real.cos
        (fun y x => Complex.arg ⟨x, y⟩) Real.log) ∧
      rotationMatrix (JSMath.mk Real.pi Real.sqrt Real.sin Real.cos
          (fun y x => Complex.arg ⟨x, y⟩) Real.log) ((2 : ℝ), 3, 5) 0
        = ((1, 0, 0), (0, 1, 0), (0, 0, 1)) ∧
      transformed (rotationMatrix (JSMath.mk Real.pi Real.sqrt Real.sin Real.cos
          (fun y x => Complex.arg ⟨x, y⟩) Real.log) ((2 : ℝ), 3, 5) 0) (1, 2, 3)
        = (1, 2, 3) :=
  ⟨isRealMath_mk, rotationMatrix_zero_angle _ isRealMath_mk (2, 3, 5) (1, 2, 3)⟩

/-- The squared length of the transformed point, for any axis: the squared
length of the point, less a term that vanishes for a unit axis. -/
theorem normSq_transformed (M : JSMath ℝ) (hM : IsRealMath M) (axis : Vec3 ℝ)
    (θ : ℝ) (p : Vec3 ℝ) :
    normSq (transformed (rotationMatrix M axis θ) p) =
      normSq p - (1 - normSq axis) * (1 - Real.cos θ) *
        ((1 + Real.cos θ) * normSq p
          + (1 - Real.cos θ) * (axis.1 * p.1 + axis.2.1 * p.2.1 + axis.2.2 * p.2.2) ^ 2) := by
  obtain ⟨-, -, hsin, hcos, -, -⟩ := hM
  obtain ⟨ux, uy, uz⟩ := axis
  obtain ⟨x, y, z⟩ := p
  have hsc := Real.sin_sq_add_cos_sq θ
  simp only [rotationMatrix, transformed, normSq, hsin, hcos]
  linear_combination
    ((uy * z - uz * y) ^ 2 + (uz * x - ux * z) ^ 2 + (ux * y - uy * x) ^ 2) * hsc

/-- For an axis of length at most one the transformed point is not longer
than the point. -/
theorem normSq_transformed_le (M : JSMath ℝ) (hM : IsRealMath M) (axis : Vec3 ℝ)
    (haxis : normSq axis ≤ 1) (θ : ℝ) (p : Vec3 ℝ) :
    normSq (transformed (rotationMatrix M axis θ) p) ≤ normSq p := by
  rw [normSq_transformed M hM axis θ p]
  have h1 : 0 ≤ 1 - normSq axis := by linarith
  have h2 : 0 ≤ 1 - Real.cos θ := by linarith [Real.cos_le_one θ]
  have h3 : 0 ≤ 1 + Real.cos θ := by linarith [Real.neg_one_le_cos θ]
  have h4 : 0 ≤ normSq p := by
    unfold normSq
    positivity
  have h5 : 0 ≤ (1 + Real.cos θ) * normSq p
      + (1 - Real.cos θ) * (axis.1 * p.1 + axis.2.1 * p.2.1 + axis.2.2 * p.2.2) ^ 2 := by
    positivity
  have h6 := mul_nonneg (mul_nonneg h1 h2) h5
  linarith

/-- C19: for a unit axis, every angle and every point the matrix built in
`#updatePositions` keeps the squared length: `transformedX² + transformedY² +
transformedZ² = x² + y² + z²`; so a point of the unit sphere is sent to a point
of the unit sphere. -/
theorem rotationMatrix_preserves_length (M : JSMath ℝ) (hM : IsRealMath M)
    (axis : Vec3 ℝ) (hunit : axis.1 ^ 2 + axis.2.1 ^ 2 + axis.2.2 ^ 2 = 1)
    (θ : ℝ) (p : Vec3 ℝ) :
    (transformed (rotationMatrix M axis θ) p).1 ^ 2
        + (transformed (rotationMatrix M axis θ) p).2.1 ^ 2
        + (transformed (rotationMatrix M axis θ) p).2.2 ^ 2
      = p.1 ^ 2 + p.2.1 ^ 2 + p.2.2 ^ 2 ∧
    (p.1 ^ 2 + p.2.1 ^ 2 + p.2.2 ^ 2 = 1 →
      (transformed (rotationMatrix M axis θ) p).1 ^ 2
        + (transformed (rotationMatrix M axis θ) p).2.1 ^ 2
        + (transformed (rotationMatrix M axis θ) p).2.2 ^ 2 = 1) := by
  have h := normSq_transformed M hM axis θ p
  have hu : normSq axis = 1 := hunit
  rw [hu] at h
  simp only [normSq] at h
  have key : (transformed (rotationMatrix M axis θ) p).1 ^ 2
        + (transformed (rotationMatrix M axis θ) p).2.1 ^ 2
        + (transformed (rotationMatrix M axis θ) p).2.2 ^ 2
      = p.1 ^ 2 + p.2.1 ^ 2 + p.2.2 ^ 2 := by
    rw [h]
    ring
  exact ⟨key, fun hp => key.trans hp⟩

theorem rotationMatrix_preserves_length_witness :
    IsRealMath (JSMath.mk Real.pi Real.sqrt Real.sin Real.cos
        (fun y x => Complex.arg ⟨x, y⟩) Real.log) ∧
      ((0 : ℝ), (1 : ℝ), (0 : ℝ)).1 ^ 2 + ((0 : ℝ), (1 : ℝ), (0 : ℝ)).2.1 ^ 2
        + ((0 : ℝ), (1 : ℝ), (0 : ℝ)).2.2 ^ 2 = 1 ∧
      (transformed (rotationMatrix (JSMath.mk Real.pi Real.sqrt Real.sin Real.cos
          (fun y x => Complex.arg ⟨x, y⟩) Real.log) (0, 1, 0) (Real.pi / 3)) (1, 2, 3)).1 ^ 2
        + (transformed (rotationMatrix (JSMath.mk Real.pi Real.sqrt Real.sin Real.cos
          (fun y x => Complex.arg ⟨x, y⟩) Real.log) (0, 1, 0) (Real.pi / 3)) (1, 2, 3)).2.1 ^ 2
        + (transformed (rotationMatrix (JSMath.mk Real.pi Real.sqrt Real.sin Real.cos
          (fun y x => Complex.arg ⟨x, y⟩) Real.log) (0, 1, 0) (Real.pi / 3)) (1, 2, 3)).2.2 ^ 2
        = ((1 : ℝ), (2 : ℝ), (3 : ℝ)).1 ^ 2 + ((1 : ℝ), (2 : ℝ), (3 : ℝ)).2.1 ^ 2
          + ((1 : ℝ), (2 : ℝ), (3 : ℝ)).2.2 ^ 2 :=
  ⟨isRealMath_mk, by norm_num,
    (rotationMatrix_preserves_length _ isRealMath_mk (0, 1, 0) (by norm_num)
      (Real.pi / 3) (1, 2, 3)).1⟩

end Rotation

/-! ## Clamping and depth cues -/

section Projection

variable {α : Type} [LinearOrderedField α]

theorem abs_clampTranslate_le (t m : α) (hm : 0 ≤ m) : |clampTranslate t m| ≤ m := by
  unfold clampTranslate
  rw [abs_le]
  constructor
  · exact le_max_left _ _
  · exact max_le (by linarith) (min_le_right _ _)

/-- C6, as the code has it: when the tag is not larger than the container
(`w ≤ c`), the clamped offset `max(-m, min(t, m))` with `m = (c - w) / 2` has
magnitude at most `m`; so has `translateX` of the style of a tag that is not
wider than the root, and `translateY` of one that is not taller. -/
theorem clampTranslate_magnitude_le (M : JSMath α) (c w t : α) (hw : w ≤ c)
    (size : α) (axis : Vec3 α) (angle : α) (containerWidth containerHeight : α)
    (p : Vec3 α) (tagRect : TagRect α) (lengthScale : α) :
    |clampTranslate t (maxOffset c w)| ≤ (c - w) / 2 ∧
      (tagRect.width ≤ containerWidth →
        |(tagStyle M size axis angle containerWidth containerHeight p tagRect
            lengthScale).translateX| ≤ (containerWidth - tagRect.width) / 2) ∧
      (tagRect.height ≤ containerHeight →
        |(tagStyle M size axis angle containerWidth containerHeight p tagRect
            lengthScale).translateY| ≤ (containerHeight - tagRect.height) / 2) := by
  have key : ∀ c w t : α, w ≤ c → |clampTranslate t (maxOffset c w)| ≤ (c - w) / 2 := by
    intro c w t h
    have hm : (0 : α) ≤ maxOffset c w := by
      unfold maxOffset
      linarith
    exact abs_clampTranslate_le t (maxOffset c w) hm
  exact ⟨key c w t hw, fun h => key _ _ _ h, fun h => key _ _ _ h⟩

theorem clampTranslate_magnitude_le_witness :
    (120 : ℝ) ≤ 300 ∧
      |clampTranslate (500 : ℝ) (maxOffset 300 120)| ≤ (300 - 120) / 2 ∧
      clampTranslate (500 : ℝ) (maxOffset 300 120) = 90 ∧
      |(tagStyle (JSMath.mk Real.pi Real.sqrt Real.sin Real.cos
          (fun y x => Complex.arg ⟨x, y⟩) Real.log) (180 : ℝ)
          (1, 0, 0) 0 300 200 (1, 0, 0) (TagRect.mk 120 40) 1).translateX|
        ≤ (300 - 120) / 2 ∧
      |(tagStyle (JSMath.mk Real.pi Real.sqrt Real.sin Real.cos
          (fun y x => Complex.arg ⟨x, y⟩) Real.log) (180 : ℝ)
          (1, 0, 0) 0 300 200 (1, 0, 0) (TagRect.mk 120 40) 1).translateY|
        ≤ (200 - 40) / 2 :=
  have h := clampTranslate_magnitude_le
    (JSMath.mk Real.pi Real.sqrt Real.sin Real.cos
      (fun y x => Complex.arg ⟨x, y⟩) Real.log) (300 : ℝ) 120 500
    (by norm_num) 180 (1, 0, 0) 0 300 200 (1, 0, 0) (TagRect.mk 120 40) 1
  ⟨by norm_num, h.1, by norm_num [clampTranslate, maxOffset],
    h.2.1 (by norm_num), h.2.2 (by norm_num)⟩

/-- C6 as stated fails: with a container of width `100`, a tag of width `120`
and the raw offset `0`, `maxX` is `-10`, the clamped offset is
`max(10, min(0, -10)) = 10`, and its magnitude `10` exceeds `maxX = -10`. -/
theorem clampTranslate_exceeds_negative_bound :
    maxOffset (100 : ℚ) 120 = -10 ∧ clampTranslate (0 : ℚ) (maxOffset 100 120) = 10 ∧
      ¬ (|clampTranslate (0 : ℚ) (maxOffset 100 120)| ≤ (100 - 120) / 2) := by
  norm_num [clampTranslate, maxOffset]

/-- C9: `depthScale(z) = (z + 2) / 3` and `opacity(z) = (z + 1.5) / 2.5` are
strictly increasing in `z`; for `z` in `[-1, 1]` they lie in `[1/3, 1]` and in
`[0.2, 1]`; the bounds are the values at `z = -1` and at `z = 1`, and no other
`z` of the interval attains them. -/
theorem depthScale_opacity_monotone_bounded :
    StrictMono (depthScale : α → α) ∧ StrictMono (opacity : α → α) ∧
      (∀ z : α, -1 ≤ z → z ≤ 1 →
        1 / 3 ≤ depthScale z ∧ depthScale z ≤ 1 ∧ 0.2 ≤ opacity z ∧ opacity z ≤ 1) ∧
      depthScale (-1 : α) = 1 / 3 ∧ depthScale (1 : α) = 1 ∧
      opacity (-1 : α) = 0.2 ∧ opacity (1 : α) = 1 ∧
      (∀ z : α, (depthScale z = 1 / 3 ↔ z = -1) ∧ (depthScale z = 1 ↔ z = 1) ∧
        (opacity z = 0.2 ↔ z = -1) ∧ (opacity z = 1 ↔ z = 1)) := by
  have hd : ∀ z : α, depthScale z = (z + 2) / 3 := fun _ => rfl
  have ho : ∀ z : α, opacity z = (z + 3 / 2) * (2 / 5) := by
    intro z
    unfold opacity
    norm_num
    ring
  have h02 : (0.2 : α) = 1 / 5 := by norm_num
  refine ⟨?_, ?_, ?_, ?_, ?_, ?_, ?_, ?_⟩
  · intro a b hab
    rw [hd, hd]
    linarith
  · intro a b hab
    rw [ho, ho]
    linarith
  · intro z h1 h2
    rw [hd, ho, h02]
    refine ⟨?_, ?_, ?_, ?_⟩ <;> linarith
  · rw [hd]; norm_num
  · rw [hd]; norm_num
  · rw [ho, h02]; norm_num
  · rw [ho]; norm_num
  · intro z
    rw [hd, ho, h02]
    refine ⟨?_, ?_, ?_, ?_⟩ <;> constructor <;> intro h <;> linarith

theorem depthScale_opacity_monotone_bounded_witness :
    depthScale (0 : ℚ) = 2 / 3 ∧ opacity (0 : ℚ) = 3 / 5 ∧
      (1 : ℚ) / 3 ≤ depthScale 0 ∧ depthScale (0 : ℚ) ≤ 1 ∧
      (0.2 : ℚ) ≤ opacity 0 ∧ opacity (0 : ℚ) ≤ 1 ∧
      depthScale (0 : ℚ) < depthScale (1 / 2) :=
  have h := depthScale_opacity_monotone_bounded (α := ℚ)
  have hb := h.2.2.1 0 (by norm_num) (by norm_num)
  ⟨by norm_num [depthScale], by norm_num [opacity], hb.1, hb.2.1, hb.2.2.1, hb.2.2.2,
    h.1 (by norm_num)⟩

theorem clampTranslate_of_abs_le (t m : α) (h : |t| ≤ m) : clampTranslate t m = t := by
  obtain ⟨h1, h2⟩ := abs_le.1 h
  unfold clampTranslate
  rw [min_eq_left h2, max_eq_right h1]

theorem updatePositions_getElem? (M : JSMath α) (s : TagsCloud α) (root : Root α)
    (tags : List (Tag α)) (i : ℕ) (p : Point α) (tag : Tag α)
    (hp : s.sphere[i]? = some p) (htag : tags[i]? = some tag) :
    (updatePositions M s root tags)[i]? = some (updatePositions.item M s root p tag) := by
  simp only [updatePositions, List.getElem?_zipWith, hp, htag]

/-- C17, as the code has it: right after construction (angle `0`, axis
`(1, 0, 0)`), for every `N` and every tag `i` whose sphere point `(x, y, z)` is
finite, `#updatePositions` computes the style from the untouched point:
`scale = ((z + 2) / 3) * sizeFactor`, `opacity = (z + 1.5) / 2.5`, and the
translations are the base projections `size * x * 0.35` and `size * y * 0.35`
clamped to `[-maxX, maxX]` and `[-maxY, maxY]`; each is the unclamped base
projection when that lies within its bound. -/
theorem updatePositions_after_construction (M : JSMath ℝ) (hM : IsRealMath M)
    (root : Root ℝ) (N : ℕ) (tags : List (Tag ℝ)) (i : ℕ) (x y z : ℝ) (tag : Tag ℝ)
    (hp : (FibonacciSphere M N)[i]? = some (some x, some y, some z))
    (htag : tags[i]? = some tag) :
    (updatePositions M (TagsCloud.new M root N) root tags)[i]? = some
        { translateX := some (clampTranslate
            (min root.offsetWidth root.offsetHeight * 0.9 * x * 0.35)
            ((root.offsetWidth - tag.rect.width) / 2))
          translateY := some (clampTranslate
            (min root.offsetWidth root.offsetHeight * 0.9 * y * 0.35)
            ((root.offsetHeight - tag.rect.height) / 2))
          combinedScale := tag.size.map (fun sizeFactor => (z + 2) / 3 * sizeFactor)
          opacity := some ((z + 1.5) / 2.5) } ∧
      (|min root.offsetWidth root.offsetHeight * 0.9 * x * 0.35|
          ≤ (root.offsetWidth - tag.rect.width) / 2 →
        clampTranslate (min root.offsetWidth root.offsetHeight * 0.9 * x * 0.35)
            ((root.offsetWidth - tag.rect.width) / 2)
          = min root.offsetWidth root.offsetHeight * 0.9 * x * 0.35) ∧
      (|min root.offsetWidth root.offsetHeight * 0.9 * y * 0.35|
          ≤ (root.offsetHeight - tag.rect.height) / 2 →
        clampTranslate (min root.offsetWidth root.offsetHeight * 0.9 * y * 0.35)
            ((root.offsetHeight - tag.rect.height) / 2)
          = min root.offsetWidth root.offsetHeight * 0.9 * y * 0.35) := by
  obtain ⟨-, -, hsin, hcos, -, -⟩ := hM
  refine ⟨?_, clampTranslate_of_abs_le _ _, clampTranslate_of_abs_le _ _⟩
  rw [updatePositions_getElem? M (TagsCloud.new M root N) root tags i _ tag hp htag]
  have hR : rotationMatrix M ((1 : ℝ), (0 : ℝ), (0 : ℝ)) 0
      = ((1, 0, 0), (0, 1, 0), (0, 0, 1)) := by
    simp [rotationMatrix, hsin, hcos]
  simp only [updatePositions.item, TagsCloud.new, hR, transformed, maxOffset, depthScale,
    opacity]
  norm_num

/-- The first point of a sphere of at least two points is the pole
`(0, 1, 0)`. -/
theorem FibonacciSphere_first_point (M : JSMath ℝ) (hM : IsRealMath M) (N : ℕ)
    (hN : 2 ≤ N) : (FibonacciSphere M N)[0]? = some (some 0, some 1, some 0) := by
  obtain ⟨-, hsqrt, -, -, -, -⟩ := hM
  rw [getElem?_FibonacciSphere M N 0 (by omega), point_eq M N 0 hN (by omega)]
  simp [yAt, hsqrt]

theorem updatePositions_after_construction_witness :
    IsRealMath (JSMath.mk Real.pi Real.sqrt Real.sin Real.cos
        (fun y x => Complex.arg ⟨x, y⟩) Real.log) ∧
      (FibonacciSphere (JSMath.mk Real.pi Real.sqrt Real.sin Real.cos
        (fun y x => Complex.arg ⟨x, y⟩) Real.log) 4)[0]?
          = some (some (0 : ℝ), some (1 : ℝ), some (0 : ℝ)) ∧
      (List.replicate 4 (Tag.mk (TagRect.mk (100 : ℝ) 40) (some 1)))[0]?
          = some (Tag.mk (TagRect.mk (100 : ℝ) 40) (some 1)) ∧
      (updatePositions (JSMath.mk Real.pi Real.sqrt Real.sin Real.cos
          (fun y x => Complex.arg ⟨x, y⟩) Real.log)
        (TagsCloud.new (JSMath.mk Real.pi Real.sqrt Real.sin Real.cos
          (fun y x => Complex.arg ⟨x, y⟩) Real.log) ⟨300, 200, 0, 0⟩ 4) ⟨300, 200, 0, 0⟩
        (List.replicate 4 (Tag.mk (TagRect.mk (100 : ℝ) 40) (some 1))))[0]? = some
          { translateX := some (clampTranslate
              (min (300 : ℝ) 200 * 0.9 * 0 * 0.35) ((300 - 100) / 2))
            translateY := some (clampTranslate
              (min (300 : ℝ) 200 * 0.9 * 1 * 0.35) ((200 - 40) / 2))
            combinedScale := (some (1 : ℝ)).map (fun sizeFactor => (0 + 2) / 3 * sizeFactor)
            opacity := some ((0 + 1.5) / 2.5) } :=
  have hp := FibonacciSphere_first_point (JSMath.mk Real.pi Real.sqrt Real.sin Real.cos
    (fun y x => Complex.arg ⟨x, y⟩) Real.log) isRealMath_mk 4 (by decide)
  ⟨isRealMath_mk, hp, rfl,
    (updatePositions_after_construction _ isRealMath_mk ⟨300, 200, 0, 0⟩ 4
      (List.replicate 4 (Tag.mk (TagRect.mk (100 : ℝ) 40) (some 1))) 0 0 1 0
      (Tag.mk (TagRect.mk (100 : ℝ) 40) (some 1)) hp rfl).1⟩

/-- C17 as stated fails: with a root of `300` by `200` (so `#size = 180`),
four tags of height `80`, angle `0` and axis `(1, 0, 0)`, the first point is
`(0, 1, 0)`, its base projection is `translateY = 180 * 1 * 0.35 = 63`, and
`#updatePositions` writes the clamped `translateY = 60 = (200 - 80) / 2`. -/
theorem updatePositions_clamps_after_construction :
    (FibonacciSphere (JSMath.mk Real.pi Real.sqrt Real.sin Real.cos
        (fun y x => Complex.arg ⟨x, y⟩) Real.log) 4)[0]?
          = some (some (0 : ℝ), some (1 : ℝ), some (0 : ℝ)) ∧
      (TagsCloud.new (JSMath.mk Real.pi Real.sqrt Real.sin Real.cos
          (fun y x => Complex.arg ⟨x, y⟩) Real.log) ⟨300, 200, 0, 0⟩ 4).size = 180 ∧
      ((updatePositions (JSMath.mk Real.pi Real.sqrt Real.sin Real.cos
          (fun y x => Complex.arg ⟨x, y⟩) Real.log)
        (TagsCloud.new (JSMath.mk Real.pi Real.sqrt Real.sin Real.cos
          (fun y x => Complex.arg ⟨x, y⟩) Real.log) ⟨300, 200, 0, 0⟩ 4) ⟨300, 200, 0, 0⟩
        (List.replicate 4 (Tag.mk (TagRect.mk (100 : ℝ) 80) (some 1))))[0]?).map
          TagStyle.translateY = some (some 60) ∧
      (60 : ℝ) ≠ 180 * 1 * 0.35 := by
  have hp := FibonacciSphere_first_point (JSMath.mk Real.pi Real.sqrt Real.sin Real.cos
    (fun y x => Complex.arg ⟨x, y⟩) Real.log) isRealMath_mk 4 (by decide)
  refine ⟨hp, ?_, ?_, by norm_num⟩
  · simp only [TagsCloud.new]
    rw [min_eq_right (by norm_num)]
    norm_num
  · rw [updatePositions_getElem? _ _ _ _ 0 _ (Tag.mk (TagRect.mk (100 : ℝ) 80) (some 1))
      hp rfl]
    have hR : rotationMatrix (JSMath.mk Real.pi Real.sqrt Real.sin Real.cos
        (fun y x => Complex.arg ⟨x, y⟩) Real.log) ((1 : ℝ), (0 : ℝ), (0 : ℝ)) 0
        = ((1, 0, 0), (0, 1, 0), (0, 0, 1)) := by
      simp [rotationMatrix]
    simp only [updatePositions.item, TagsCloud.new, hR, transformed, maxOffset,
      clampTranslate, Option.map_some']
    rw [min_eq_right (by norm_num : (200 : ℝ) ≤ 300)]
    norm_num

end Projection

/-! ## Font sizes -/

section FontSizes

theorem le_foldl_max_init (l : List ℕ) : ∀ init : ℕ, init ≤ l.foldl max init := by
  induction l with
  | nil => intro init; exact le_rfl
  | cons a l ih =>
    intro init
    exact le_trans (le_max_left init a) (ih (max init a))

theorem le_foldl_max_of_mem (l : List ℕ) :
    ∀ (init x : ℕ), x ∈ l → x ≤ l.foldl max init := by
  induction l with
  | nil => intro init x hx; simp at hx
  | cons a l ih =>
    intro init x hx
    rcases List.mem_cons.1 hx with h | h
    · rw [h]
      exact le_trans (le_max_right init a) (le_foldl_max_init l (max init a))
    · exact ih (max init a) x h

theorem toFixed2_mono {a b : ℝ} (h : a ≤ b) : toFixed2 a ≤ toFixed2 b := by
  unfold toFixed2
  have h1 : ⌊a * 100 + 1 / 2⌋ ≤ ⌊b * 100 + 1 / 2⌋ := Int.floor_mono (by linarith)
  have h2 : ((⌊a * 100 + 1 / 2⌋ : ℤ) : ℝ) ≤ ((⌊b * 100 + 1 / 2⌋ : ℤ) : ℝ) := by
    exact_mod_cast h1
  exact div_le_div_of_nonneg_right h2 (by norm_num)

theorem toFixed2_eight_tenths : toFixed2 (0.8 : ℝ) = 0.8 := by
  unfold toFixed2
  have h : ⌊(0.8 : ℝ) * 100 + 1 / 2⌋ = 80 := by
    rw [Int.floor_eq_iff]
    constructor <;> norm_num
  rw [h]
  norm_num

theorem toFixed2_three_halves : toFixed2 (1.5 : ℝ) = 1.5 := by
  unfold toFixed2
  have h : ⌊(1.5 : ℝ) * 100 + 1 / 2⌋ = 150 := by
    rw [Int.floor_eq_iff]
    constructor <;> norm_num
  rw [h]
  norm_num

/-- C12: for labels whose longest trimmed text has length `maxLength ≥ 1`, the
factor that `#normalizeFontSizes` computes for a label of trimmed length `L` is
`f L = max(0.8, 1.5 - ln(L+1) / ln(maxLength+1))`, finite, and what is read back
from `dataset.size` is `f L` rounded to two decimals; both lie in `[0.8, 1.5]`,
both are non-increasing in `L`, no label is longer than `maxLength`, and a
label of length `maxLength` gets exactly `0.8`. -/
theorem normalizeFontSizes_factor (M : JSMath ℝ) (hM : IsRealMath M)
    (lengths : List ℕ) (hmax : 1 ≤ lengths.foldl max 0) (i L : ℕ)
    (hL : lengths[i]? = some L) (f : ℕ → ℝ)
    (hf : ∀ n : ℕ, f n = max 0.8
      (1.5 - Real.log ((n : ℝ) + 1) / Real.log (((lengths.foldl max 0 : ℕ) : ℝ) + 1))) :
    scaleFactor M (lengths.foldl max 0) L = some (f L) ∧
      (normalizeFontSizes M lengths)[i]? = some (some (toFixed2 (f L))) ∧
      0.8 ≤ f L ∧ f L ≤ 1.5 ∧ 0.8 ≤ toFixed2 (f L) ∧ toFixed2 (f L) ≤ 1.5 ∧
      (∀ L₁ L₂ : ℕ, L₁ ≤ L₂ →
        f L₂ ≤ f L₁ ∧ toFixed2 (f L₂) ≤ toFixed2 (f L₁)) ∧
      L ≤ lengths.foldl max 0 ∧
      (L = lengths.foldl max 0 → f L = 0.8 ∧ toFixed2 (f L) = 0.8) := by
  obtain ⟨-, -, -, -, -, hlog⟩ := hM
  have hK : (1 : ℝ) < ((lengths.foldl max 0 : ℕ) : ℝ) + 1 := by
    have : (1 : ℝ) ≤ ((lengths.foldl max 0 : ℕ) : ℝ) := by exact_mod_cast hmax
    linarith
  have hlogK : 0 < Real.log (((lengths.foldl max 0 : ℕ) : ℝ) + 1) := Real.log_pos hK
  have hscale : ∀ n : ℕ, scaleFactor M (lengths.foldl max 0) n = some (f n) := by
    intro n
    simp only [scaleFactor, jsDiv, hlog, if_neg hlogK.ne', Option.map_some', hf n,
      max_comm]
  have hlo : ∀ n : ℕ, 0.8 ≤ f n := by
    intro n
    rw [hf n]
    exact le_max_left _ _
  have hhi : ∀ n : ℕ, f n ≤ 1.5 := by
    intro n
    rw [hf n]
    have hn : 0 ≤ Real.log ((n : ℝ) + 1) :=
      Real.log_nonneg (by linarith [Nat.cast_nonneg (α := ℝ) n])
    have hq : 0 ≤ Real.log ((n : ℝ) + 1)
        / Real.log (((lengths.foldl max 0 : ℕ) : ℝ) + 1) := div_nonneg hn hlogK.le
    exact max_le (by norm_num) (by linarith)
  have hanti : ∀ L₁ L₂ : ℕ, L₁ ≤ L₂ → f L₂ ≤ f L₁ := by
    intro L₁ L₂ h
    rw [hf L₁, hf L₂]
    have hc : ((L₁ : ℝ) + 1) ≤ (L₂ : ℝ) + 1 := by
      have : (L₁ : ℝ) ≤ (L₂ : ℝ) := by exact_mod_cast h
      linarith
    have h1 : Real.log ((L₁ : ℝ) + 1) ≤ Real.log ((L₂ : ℝ) + 1) :=
      Real.log_le_log (by linarith [Nat.cast_nonneg (α := ℝ) L₁]) hc
    have h2 := div_le_div_of_nonneg_right h1 hlogK.le
    exact max_le_max le_rfl (by linarith)
  refine ⟨hscale L, ?_, hlo L, hhi L, ?_, ?_, ?_, ?_, ?_⟩
  · simp only [normalizeFontSizes, List.getElem?_map, hL, Option.map_some', hscale L]
  · rw [← toFixed2_eight_tenths]
    exact toFixed2_mono (hlo L)
  · rw [← toFixed2_three_halves]
    exact toFixed2_mono (hhi L)
  · intro L₁ L₂ h
    exact ⟨hanti L₁ L₂ h, toFixed2_mono (hanti L₁ L₂ h)⟩
  · exact le_foldl_max_of_mem lengths 0 L (List.getElem?_mem hL)
  · intro h
    have h8 : f L = 0.8 := by
      rw [hf L, h, div_self hlogK.ne']
      norm_num
    exact ⟨h8, by rw [h8, toFixed2_eight_tenths]⟩

theorem normalizeFontSizes_factor_witness :
    IsRealMath (JSMath.mk Real.pi Real.sqrt Real.sin Real.cos
        (fun y x => Complex.arg ⟨x, y⟩) Real.log) ∧
      1 ≤ [3, 5, 10].foldl max 0 ∧ [3, 5, 10][1]? = some 5 ∧
      (normalizeFontSizes (JSMath.mk Real.pi Real.sqrt Real.sin Real.cos
          (fun y x => Complex.arg ⟨x, y⟩) Real.log) [3, 5, 10])[1]?
        = some (some (toFixed2 (max 0.8
            (1.5 - Real.log (((5 : ℕ) : ℝ) + 1)
              / Real.log ((([3, 5, 10].foldl max 0 : ℕ) : ℝ) + 1))))) :=
  ⟨isRealMath_mk, by decide, rfl,
    (normalizeFontSizes_factor _ isRealMath_mk [3, 5, 10] (by decide) 1 5 rfl
      (fun n => max 0.8 (1.5 - Real.log ((n : ℝ) + 1)
        / Real.log ((([3, 5, 10].foldl max 0 : ℕ) : ℝ) + 1)))
      (fun _ => rfl)).2.1⟩

end FontSizes

/-! ## The orientation state machine -/

section Engine

variable {α : Type} [LinearOrderedField α]

theorem run_nil (M : JSMath α) (s : TagsCloud α) : s.run M [] = s := rfl

theorem run_cons (M : JSMath α) (s : TagsCloud α) (ev : Event α)
    (events : List (Event α)) :
    s.run M (ev :: events) = (s.handle M ev).run M events := rfl

theorem run_append (M : JSMath α) (s : TagsCloud α) (es fs : List (Event α)) :
    s.run M (es ++ fs) = (s.run M es).run M fs := by
  simp [TagsCloud.run, List.foldl_append]

theorem update_of_autoRotate_false (M : JSMath α) (s : TagsCloud α)
    (h : s.autoRotate = false) :
    s.update M = { s with rotationAngle := jsAdd s.rotationAngle s.rotationSpeed } := by
  simp [TagsCloud.update, h]

theorem update_of_idle_gt (M : JSMath α) (s : TagsCloud α) (h : s.autoRotate = true)
    (ht : 2 < s.idleTime + 0.016) :
    s.update M = { s with rotationAngle := jsAdd s.rotationAngle s.rotationSpeed,
                          idleTime := s.idleTime + 0.016,
                          rotationSpeed := some 0.005,
                          rotationAxis := idleAxis M (s.idleTime + 0.016) } := by
  simp [TagsCloud.update, h, ht]

theorem update_of_idle_le (M : JSMath α) (s : TagsCloud α) (h : s.autoRotate = true)
    (ht : ¬ 2 < s.idleTime + 0.016) :
    s.update M = { s with rotationAngle := jsAdd s.rotationAngle s.rotationSpeed,
                          idleTime := s.idleTime + 0.016 } := by
  simp [TagsCloud.update, h, ht]

/-- After a handler has cleared `#autoRotate` and `#idleTime`, no event sets
them again. -/
theorem handle_keeps_user_driven (M : JSMath α) (s : TagsCloud α) (ev : Event α)
    (h : s.autoRotate = false ∧ s.idleTime = 0) :
    (s.handle M ev).autoRotate = false ∧ (s.handle M ev).idleTime = 0 := by
  cases ev with
  | tick =>
    simp only [TagsCloud.handle]
    rw [update_of_autoRotate_false M s h.1]
    exact h
  | mousemove e root window => exact ⟨rfl, rfl⟩
  | touchmove touch root window => exact ⟨rfl, rfl⟩
  | resize root => exact h

theorem run_keeps_user_driven (M : JSMath α) (events : List (Event α)) :
    ∀ s : TagsCloud α, s.autoRotate = false ∧ s.idleTime = 0 →
      (s.run M events).autoRotate = false ∧ (s.run M events).idleTime = 0 := by
  induction events with
  | nil => intro s h; exact h
  | cons ev events ih =>
    intro s h
    rw [run_cons]
    exact ih _ (handle_keeps_user_driven M s ev h)

theorem run_passive_keeps_axis_speed (M : JSMath α) (events : List (Event α)) :
    ∀ s : TagsCloud α, s.autoRotate = false → (∀ ev ∈ events, ev.isPassive) →
      (s.run M events).rotationAxis = s.rotationAxis ∧
        (s.run M events).rotationSpeed = s.rotationSpeed := by
  induction events with
  | nil => intro s _ _; exact ⟨rfl, rfl⟩
  | cons ev events ih =>
    intro s h hp
    rw [run_cons]
    have hev := hp ev (List.mem_cons_self _ _)
    have hrest : ∀ e ∈ events, e.isPassive := fun e he => hp e (List.mem_cons_of_mem _ he)
    cases ev with
    | tick =>
      have hu := update_of_autoRotate_false M s h
      have := ih (s.handle M .tick) (by simp only [TagsCloud.handle]; rw [hu]; exact h) hrest
      simp only [TagsCloud.handle] at this ⊢
      rw [hu] at this ⊢
      exact this
    | mousemove e root window => exact absurd hev (by simp [Event.isPassive])
    | touchmove touch root window => exact absurd hev (by simp [Event.isPassive])
    | resize root => exact ih (s.handle M (.resize root)) h hrest

/-- C7: once `#onMouseMove` or `#onTouchMove` has run, after every later
sequence of ticks, pointer moves and resizes `#autoRotate` is `false` and
`#idleTime` is `0`; a tick then changes `#rotationAngle` only, by adding
`#rotationSpeed`; and as long as no further pointer event arrives,
`#rotationAxis` and `#rotationSpeed` are as the pointer handler set them. -/
theorem idle_tumble_never_reactivates (M : JSMath α) (s : TagsCloud α)
    (e : Pointer α) (root : Root α) (window : Window α) (events : List (Event α))
    (s1 : TagsCloud α)
    (h1 : s1 = s.onMouseMove M e root window ∨ s1 = s.onTouchMove M e root window) :
    (s1.run M events).autoRotate = false ∧ (s1.run M events).idleTime = 0 ∧
      (s1.run M events).update M =
        { s1.run M events with
          rotationAngle := jsAdd (s1.run M events).rotationAngle
            (s1.run M events).rotationSpeed } ∧
      ((∀ ev ∈ events, ev.isPassive) →
        (s1.run M events).rotationAxis = s1.rotationAxis ∧
          (s1.run M events).rotationSpeed = s1.rotationSpeed) := by
  have h0 : s1.autoRotate = false ∧ s1.idleTime = 0 := by
    rcases h1 with h | h <;> rw [h] <;> exact ⟨rfl, rfl⟩
  have hrun := run_keeps_user_driven M events s1 h0
  exact ⟨hrun.1, hrun.2, update_of_autoRotate_false M _ hrun.1,
    fun hp => run_passive_keeps_axis_speed M events s1 h0.1 hp⟩

theorem idle_tumble_never_reactivates_witness :
    (((TagsCloud.new (JSMath.mk Real.pi Real.sqrt Real.sin Real.cos
            (fun y x => Complex.arg ⟨x, y⟩) Real.log) ⟨300, 200, 0, 0⟩ 4).onMouseMove
          (JSMath.mk Real.pi Real.sqrt Real.sin Real.cos
            (fun y x => Complex.arg ⟨x, y⟩) Real.log) ⟨200, 150⟩ ⟨300, 200, 0, 0⟩
          ⟨800, 600⟩).run
        (JSMath.mk Real.pi Real.sqrt Real.sin Real.cos
          (fun y x => Complex.arg ⟨x, y⟩) Real.log)
        [Event.tick, Event.resize ⟨200, 200, 0, 0⟩, Event.tick]).autoRotate = false ∧
    (((TagsCloud.new (JSMath.mk Real.pi Real.sqrt Real.sin Real.cos
            (fun y x => Complex.arg ⟨x, y⟩) Real.log) ⟨300, 200, 0, 0⟩ 4).onMouseMove
          (JSMath.mk Real.pi Real.sqrt Real.sin Real.cos
            (fun y x => Complex.arg ⟨x, y⟩) Real.log) ⟨200, 150⟩ ⟨300, 200, 0, 0⟩
          ⟨800, 600⟩).run
        (JSMath.mk Real.pi Real.sqrt Real.sin Real.cos
          (fun y x => Complex.arg ⟨x, y⟩) Real.log)
        [Event.tick, Event.resize ⟨200, 200, 0, 0⟩, Event.tick]).idleTime = 0 :=
  have h := idle_tumble_never_reactivates
    (JSMath.mk Real.pi Real.sqrt Real.sin Real.cos
      (fun y x => Complex.arg ⟨x, y⟩) Real.log)
    (TagsCloud.new (JSMath.mk Real.pi Real.sqrt Real.sin Real.cos
      (fun y x => Complex.arg ⟨x, y⟩) Real.log) ⟨300, 200, 0, 0⟩ 4)
    ⟨200, 150⟩ ⟨300, 200, 0, 0⟩ ⟨800, 600⟩
    [Event.tick, Event.resize ⟨200, 200, 0, 0⟩, Event.tick] _ (Or.inl rfl)
  ⟨h.1, h.2.1⟩

/-- C8: a mouse move exactly at the centre of the container (`deltaX = 0` and
`deltaY = 0`), with a viewport of positive larger dimension, leaves a finite
state: `#rotationSpeed` is `0`, `Math.atan2(0, 0)` is `0`, and `#rotationAxis`
is `(sin(-π/2), cos(-π/2), 0) = (-1, 0, 0)`. -/
theorem onMouseMove_at_center (M : JSMath ℝ) (hM : IsRealMath M) (s : TagsCloud ℝ)
    (e : Pointer ℝ) (root : Root ℝ) (window : Window ℝ)
    (hx : e.clientX - (root.left + root.offsetWidth / 2) = 0)
    (hy : e.clientY - (root.top + root.offsetHeight / 2) = 0)
    (hv : 0 < max window.innerHeight window.innerWidth) :
    (s.onMouseMove M e root window).rotationSpeed = some 0 ∧
      M.atan2 0 0 = 0 ∧
      (s.onMouseMove M e root window).rotationAxis
        = (M.sin (-(M.PI / 2)), M.cos (-(M.PI / 2)), 0) ∧
      (s.onMouseMove M e root window).rotationAxis = (-1, 0, 0) := by
  obtain ⟨hpi, hsqrt, hsin, hcos, hatan, -⟩ := hM
  have harg : M.atan2 0 0 = 0 := by
    rw [hatan]
    exact Complex.arg_zero
  have haxis : (s.onMouseMove M e root window).rotationAxis
      = (M.sin (-(M.PI / 2)), M.cos (-(M.PI / 2)), 0) := by
    simp only [TagsCloud.onMouseMove, hx, hy, harg, zero_sub]
  refine ⟨?_, harg, haxis, ?_⟩
  · simp only [TagsCloud.onMouseMove, hx, hy, jsDiv, if_neg hv.ne', hsqrt]
    simp
  · rw [haxis, hsin, hcos, hpi]
    simp

theorem onMouseMove_at_center_witness :
    IsRealMath (JSMath.mk Real.pi Real.sqrt Real.sin Real.cos
        (fun y x => Complex.arg ⟨x, y⟩) Real.log) ∧
      (150 : ℝ) - (0 + 300 / 2) = 0 ∧ (120 : ℝ) - (20 + 200 / 2) = 0 ∧
      (0 : ℝ) < max 600 800 ∧
      ((TagsCloud.new (JSMath.mk Real.pi Real.sqrt Real.sin Real.cos
            (fun y x => Complex.arg ⟨x, y⟩) Real.log) ⟨300, 200, 0, 20⟩ 4).onMouseMove
          (JSMath.mk Real.pi Real.sqrt Real.sin Real.cos
            (fun y x => Complex.arg ⟨x, y⟩) Real.log) ⟨150, 120⟩ ⟨300, 200, 0, 20⟩
          ⟨800, 600⟩).rotationSpeed = some 0 ∧
      ((TagsCloud.new (JSMath.mk Real.pi Real.sqrt Real.sin Real.cos
            (fun y x => Complex.arg ⟨x, y⟩) Real.log) ⟨300, 200, 0, 20⟩ 4).onMouseMove
          (JSMath.mk Real.pi Real.sqrt Real.sin Real.cos
            (fun y x => Complex.arg ⟨x, y⟩) Real.log) ⟨150, 120⟩ ⟨300, 200, 0, 20⟩
          ⟨800, 600⟩).rotationAxis = (-1, 0, 0) :=
  have h := onMouseMove_at_center
    (JSMath.mk Real.pi Real.sqrt Real.sin Real.cos
      (fun y x => Complex.arg ⟨x, y⟩) Real.log) isRealMath_mk
    (TagsCloud.new (JSMath.mk Real.pi Real.sqrt Real.sin Real.cos
      (fun y x => Complex.arg ⟨x, y⟩) Real.log) ⟨300, 200, 0, 20⟩ 4)
    ⟨150, 120⟩ ⟨300, 200, 0, 20⟩ ⟨800, 600⟩ (by norm_num) (by norm_num) (by norm_num)
  ⟨isRealMath_mk, by norm_num, by norm_num, by norm_num, h.1, h.2.2.2⟩

/-- From construction, `k` ticks without pointer input leave `#autoRotate`
set and `#idleTime = 0.016 k`, and the axis is the idle axis as soon as
`0.016 k` exceeds `2`. -/
theorem run_ticks_new (M : JSMath α) (root : Root α) (N k : ℕ) :
    ((TagsCloud.new M root N).run M (List.replicate k Event.tick)).autoRotate = true ∧
      ((TagsCloud.new M root N).run M (List.replicate k Event.tick)).idleTime
        = 0.016 * (k : α) ∧
      (2 < 0.016 * (k : α) →
        ((TagsCloud.new M root N).run M (List.replicate k Event.tick)).rotationAxis
          = idleAxis M (0.016 * (k : α))) := by
  induction k with
  | zero =>
    refine ⟨rfl, ?_, ?_⟩
    · simp [TagsCloud.run, TagsCloud.new]
    · intro h
      norm_num at h
  | succ k ih =>
    obtain ⟨ha, ht, -⟩ := ih
    have hcast : (0.016 : α) * ((k + 1 : ℕ) : α) = 0.016 * (k : α) + 0.016 := by
      push_cast
      ring
    rw [List.replicate_succ', run_append, run_cons, run_nil, hcast]
    simp only [TagsCloud.handle]
    by_cases hgt : 2 < ((TagsCloud.new M root N).run M
        (List.replicate k Event.tick)).idleTime + 0.016
    · rw [update_of_idle_gt M _ ha hgt]
      refine ⟨ha, ?_, ?_⟩
      · simp only [ht]
      · intro _
        simp only [ht]
    · rw [update_of_idle_le M _ ha hgt]
      refine ⟨ha, ?_, ?_⟩
      · simp only [ht]
      · intro h
        rw [ht] at hgt
        exact absurd h hgt

theorem normSq_idleAxis_le (M : JSMath ℝ) (hM : IsRealMath M) (t : ℝ) :
    normSq (idleAxis M t) ≤ 3 / 4 := by
  obtain ⟨-, -, hsin, hcos, -, -⟩ := hM
  simp only [normSq, idleAxis, hsin, hcos]
  have h1 := Real.sin_sq_le_one (t * 0.5)
  have h2 := Real.cos_sq_le_one (t * 0.3)
  have h3 := Real.sin_sq_le_one (t * 0.2)
  norm_num
  nlinarith

theorem axisInv_new (M : JSMath α) (root : Root α) (N : ℕ) :
    AxisInv M (TagsCloud.new M root N) := by
  right
  constructor
  · rintro ⟨-, h⟩
    simp only [TagsCloud.new] at h
    norm_num at h
  · simp [normSq, TagsCloud.new]

theorem axisInv_pointer (s : TagsCloud α) (M : JSMath α) (axis : Vec3 α)
    (speed : Option α) (h : normSq axis = 1) :
    AxisInv M { s with autoRotate := false, idleTime := 0, rotationAxis := axis,
                       rotationSpeed := speed } := by
  right
  exact ⟨by simp, h⟩

theorem axisInv_update (M : JSMath α) (s : TagsCloud α) (h : AxisInv M s) :
    AxisInv M (s.update M) := by
  cases ha : s.autoRotate with
  | false =>
    rw [update_of_autoRotate_false M s ha]
    rcases h with ⟨h1, -, -⟩ | ⟨-, h2⟩
    · rw [ha] at h1
      exact absurd h1 (by simp)
    · right
      exact ⟨by simp [ha], h2⟩
  | true =>
    by_cases hgt : 2 < s.idleTime + 0.016
    · rw [update_of_idle_gt M s ha hgt]
      left
      exact ⟨ha, hgt, rfl⟩
    · rw [update_of_idle_le M s ha hgt]
      rcases h with ⟨-, h1, -⟩ | ⟨-, h2⟩
      · exfalso
        apply hgt
        have : (0 : α) < 0.016 := by norm_num
        linarith
      · right
        exact ⟨fun hh => hgt hh.2, h2⟩

theorem axisInv_handle (M : JSMath ℝ) (hM : IsRealMath M) (s : TagsCloud ℝ)
    (ev : Event ℝ) (h : AxisInv M s) : AxisInv M (s.handle M ev) := by
  obtain ⟨-, -, hsin, hcos, -, -⟩ := hM
  cases ev with
  | tick => exact axisInv_update M s h
  | mousemove e root window =>
    simp only [TagsCloud.handle, TagsCloud.onMouseMove]
    apply axisInv_pointer
    simp [normSq, hsin, hcos]
  | touchmove touch root window =>
    simp only [TagsCloud.handle, TagsCloud.onTouchMove]
    apply axisInv_pointer
    simp [normSq, hsin, hcos]
  | resize root => exact h

theorem axisInv_run (M : JSMath ℝ) (hM : IsRealMath M) (events : List (Event ℝ)) :
    ∀ s : TagsCloud ℝ, AxisInv M s → AxisInv M (s.run M events) := by
  induction events with
  | nil => intro s h; exact h
  | cons ev events ih =>
    intro s h
    rw [run_cons]
    exact ih _ (axisInv_handle M hM s ev h)

/-- C5, as the code has it: in every state reachable from construction by
ticks, pointer moves and resizes, the rotation axis is a unit vector unless the
idle tumble is in effect (`#autoRotate` set and `#idleTime > 2`); in the idle
tumble the axis is `(0.5 sin(0.5 t), 0.5 cos(0.3 t), 0.5 sin(0.2 t))` at
`t = #idleTime`, of squared length at most `3/4`. -/
theorem rotationAxis_unit_outside_idle_tumble (M : JSMath ℝ) (hM : IsRealMath M)
    (s : TagsCloud ℝ) (hs : Reachable M s) :
    (¬ (s.autoRotate = true ∧ 2 < s.idleTime) →
        s.rotationAxis.1 ^ 2 + s.rotationAxis.2.1 ^ 2 + s.rotationAxis.2.2 ^ 2 = 1) ∧
      (s.autoRotate = true ∧ 2 < s.idleTime →
        s.rotationAxis = idleAxis M s.idleTime ∧
          s.rotationAxis.1 ^ 2 + s.rotationAxis.2.1 ^ 2 + s.rotationAxis.2.2 ^ 2
            ≤ 3 / 4) := by
  obtain ⟨root, N, events, rfl⟩ := hs
  have h := axisInv_run M hM events _ (axisInv_new M root N)
  constructor
  · intro hn
    rcases h with ⟨h1, h2, -⟩ | ⟨-, h2⟩
    · exact absurd ⟨h1, h2⟩ hn
    · exact h2
  · intro hi
    rcases h with ⟨-, -, h3⟩ | ⟨h1, -⟩
    · refine ⟨h3, ?_⟩
      have := normSq_idleAxis_le M hM
        ((TagsCloud.new M root N).run M events).idleTime
      rw [← h3] at this
      exact this
    · exact absurd hi h1

theorem rotationAxis_unit_outside_idle_tumble_witness :
    IsRealMath (JSMath.mk Real.pi Real.sqrt Real.sin Real.cos
        (fun y x => Complex.arg ⟨x, y⟩) Real.log) ∧
      Reachable (JSMath.mk Real.pi Real.sqrt Real.sin Real.cos
          (fun y x => Complex.arg ⟨x, y⟩) Real.log)
        ((TagsCloud.new (JSMath.mk Real.pi Real.sqrt Real.sin Real.cos
            (fun y x => Complex.arg ⟨x, y⟩) Real.log) ⟨300, 200, 0, 0⟩ 4).run
          (JSMath.mk Real.pi Real.sqrt Real.sin Real.cos
            (fun y x => Complex.arg ⟨x, y⟩) Real.log)
          [Event.tick, Event.mousemove ⟨200, 150⟩ ⟨300, 200, 0, 0⟩ ⟨800, 600⟩,
            Event.tick]) ∧
      ((TagsCloud.new (JSMath.mk Real.pi Real.sqrt Real.sin Real.cos
            (fun y x => Complex.arg ⟨x, y⟩) Real.log) ⟨300, 200, 0, 0⟩ 4).run
          (JSMath.mk Real.pi Real.sqrt Real.sin Real.cos
            (fun y x => Complex.arg ⟨x, y⟩) Real.log)
          [Event.tick, Event.mousemove ⟨200, 150⟩ ⟨300, 200, 0, 0⟩ ⟨800, 600⟩,
            Event.tick]).rotationAxis.1 ^ 2
        + ((TagsCloud.new (JSMath.mk Real.pi Real.sqrt Real.sin Real.cos
            (fun y x => Complex.arg ⟨x, y⟩) Real.log) ⟨300, 200, 0, 0⟩ 4).run
          (JSMath.mk Real.pi Real.sqrt Real.sin Real.cos
            (fun y x => Complex.arg ⟨x, y⟩) Real.log)
          [Event.tick, Event.mousemove ⟨200, 150⟩ ⟨300, 200, 0, 0⟩ ⟨800, 600⟩,
            Event.tick]).rotationAxis.2.1 ^ 2
        + ((TagsCloud.new (JSMath.mk Real.pi Real.sqrt Real.sin Real.cos
            (fun y x => Complex.arg ⟨x, y⟩) Real.log) ⟨300, 200, 0, 0⟩ 4).run
          (JSMath.mk Real.pi Real.sqrt Real.sin Real.cos
            (fun y x => Complex.arg ⟨x, y⟩) Real.log)
          [Event.tick, Event.mousemove ⟨200, 150⟩ ⟨300, 200, 0, 0⟩ ⟨800, 600⟩,
            Event.tick]).rotationAxis.2.2 ^ 2 = 1 :=
  have hr : Reachable (JSMath.mk Real.pi Real.sqrt Real.sin Real.cos
          (fun y x => Complex.arg ⟨x, y⟩) Real.log)
        ((TagsCloud.new (JSMath.mk Real.pi Real.sqrt Real.sin Real.cos
            (fun y x => Complex.arg ⟨x, y⟩) Real.log) ⟨300, 200, 0, 0⟩ 4).run
          (JSMath.mk Real.pi Real.sqrt Real.sin Real.cos
            (fun y x => Complex.arg ⟨x, y⟩) Real.log)
          [Event.tick, Event.mousemove ⟨200, 150⟩ ⟨300, 200, 0, 0⟩ ⟨800, 600⟩,
            Event.tick]) := ⟨_, _, _, rfl⟩
  ⟨isRealMath_mk, hr,
    (rotationAxis_unit_outside_idle_tumble _ isRealMath_mk _ hr).1
      (fun h => absurd h.1 (by
        simp [TagsCloud.run, TagsCloud.handle, TagsCloud.update,
          TagsCloud.onMouseMove]))⟩

/-- C5 as stated fails: after construction and `126` ticks without pointer
input, `#idleTime` is `0.016 * 126 = 2.016 > 2`, the tick has stored the idle
axis `(0.5 sin(1.008), 0.5 cos(0.6048), 0.5 sin(0.4032))`, and its squared
length is at most `3/4`, not `1`. -/
theorem rotationAxis_not_unit_in_idle_tumble :
    Reachable (JSMath.mk Real.pi Real.sqrt Real.sin Real.cos
          (fun y x => Complex.arg ⟨x, y⟩) Real.log)
        ((TagsCloud.new (JSMath.mk Real.pi Real.sqrt Real.sin Real.cos
            (fun y x => Complex.arg ⟨x, y⟩) Real.log) ⟨300, 200, 0, 0⟩ 4).run
          (JSMath.mk Real.pi Real.sqrt Real.sin Real.cos
            (fun y x => Complex.arg ⟨x, y⟩) Real.log)
          (List.replicate 126 Event.tick)) ∧
      ((TagsCloud.new (JSMath.mk Real.pi Real.sqrt Real.sin Real.cos
            (fun y x => Complex.arg ⟨x, y⟩) Real.log) ⟨300, 200, 0, 0⟩ 4).run
          (JSMath.mk Real.pi Real.sqrt Real.sin Real.cos
            (fun y x => Complex.arg ⟨x, y⟩) Real.log)
          (List.replicate 126 Event.tick)).rotationAxis
        = (Real.sin (2.016 * 0.5) * 0.5, Real.cos (2.016 * 0.3) * 0.5,
            Real.sin (2.016 * 0.2) * 0.5) ∧
      (Real.sin (2.016 * 0.5) * 0.5) ^ 2 + (Real.cos (2.016 * 0.3) * 0.5) ^ 2
        + (Real.sin (2.016 * 0.2) * 0.5) ^ 2 ≠ 1 := by
  refine ⟨⟨_, _, _, rfl⟩, ?_, ?_⟩
  · have h := (run_ticks_new (JSMath.mk Real.pi Real.sqrt Real.sin Real.cos
      (fun y x => Complex.arg ⟨x, y⟩) Real.log) ⟨300, 200, 0, 0⟩ 4 126).2.2
      (by norm_num)
    rw [h]
    simp only [idleAxis]
    norm_num
  · have h1 := Real.sin_sq_le_one (2.016 * 0.5)
    have h2 := Real.cos_sq_le_one (2.016 * 0.3)
    have h3 := Real.sin_sq_le_one (2.016 * 0.2)
    intro h
    nlinarith

/-! ### Frame conditions -/

theorem handle_sphere (M : JSMath α) (s : TagsCloud α) (ev : Event α) :
    (s.handle M ev).sphere = s.sphere := by
  cases ev with
  | tick =>
    simp only [TagsCloud.handle, TagsCloud.update]
    split_ifs <;> rfl
  | mousemove e root window => rfl
  | touchmove touch root window => rfl
  | resize root => rfl

theorem run_sphere (M : JSMath α) (events : List (Event α)) :
    ∀ s : TagsCloud α, (s.run M events).sphere = s.sphere := by
  induction events with
  | nil => intro s; rfl
  | cons ev events ih =>
    intro s
    rw [run_cons, ih, handle_sphere]

/-- C14: every event (a tick, a mouse move, a touch move, a resize), and so
every sequence of events, leaves the array of sphere points as it is: same
length, same order, same coordinates; in a reachable state it is the array the
constructor built.  A resize sets `#size` to
`Math.min(offsetWidth, offsetHeight) * 0.9` and changes nothing else. -/
theorem sphere_fixed_resize_only_size (M : JSMath α) (s : TagsCloud α) :
    (∀ ev : Event α, (s.handle M ev).sphere = s.sphere) ∧
      (∀ events : List (Event α), (s.run M events).sphere = s.sphere) ∧
      (∀ (root : Root α) (N : ℕ) (events : List (Event α)),
        ((TagsCloud.new M root N).run M events).sphere = FibonacciSphere M N ∧
        ((TagsCloud.new M root N).run M events).sphere.length = N) ∧
      (∀ root : Root α,
        s.handle M (Event.resize root) =
          { s with size := min root.offsetWidth root.offsetHeight * 0.9 } ∧
        (s.handle M (Event.resize root)).size
          = 0.9 * min root.offsetWidth root.offsetHeight ∧
        (s.handle M (Event.resize root)).sphere = s.sphere ∧
        (s.handle M (Event.resize root)).rotationAxis = s.rotationAxis ∧
        (s.handle M (Event.resize root)).rotationAngle = s.rotationAngle ∧
        (s.handle M (Event.resize root)).rotationSpeed = s.rotationSpeed ∧
        (s.handle M (Event.resize root)).autoRotate = s.autoRotate ∧
        (s.handle M (Event.resize root)).idleTime = s.idleTime) := by
  refine ⟨handle_sphere M s, fun events => run_sphere M events s, ?_, ?_⟩
  · intro root N events
    rw [run_sphere]
    exact ⟨rfl, by simp [TagsCloud.new, FibonacciSphere]⟩
  · intro root
    refine ⟨rfl, ?_, rfl, rfl, rfl, rfl, rfl, rfl⟩
    simp only [TagsCloud.handle, TagsCloud.updateSize]
    ring

/-! ### The idle phase -/

theorem Double.shift_spec (fuel : ℕ) :
    ∀ n : ℕ, n < 2 ^ 53 * 2 ^ fuel →
      n / 2 ^ Double.shift fuel n < 2 ^ 53 ∧
        (Double.shift fuel n = 0 ∨ 2 ^ 52 ≤ n / 2 ^ Double.shift fuel n) := by
  induction fuel with
  | zero =>
    intro n h
    simpa [Double.shift] using h
  | succ fuel ih =>
    intro n h
    by_cases hn : n < 2 ^ 53
    · have hs : Double.shift (fuel + 1) n = 0 := by
        rw [Double.shift, if_pos hn]
      rw [hs, pow_zero, Nat.div_one]
      exact ⟨hn, Or.inl rfl⟩
    · have h2 : n / 2 < 2 ^ 53 * 2 ^ fuel := by
        apply Nat.div_lt_of_lt_mul
        rw [pow_succ] at h
        calc n < 2 ^ 53 * (2 ^ fuel * 2) := h
          _ = 2 * (2 ^ 53 * 2 ^ fuel) := by ring
      obtain ⟨i1, i2⟩ := ih (n / 2) h2
      have hs : Double.shift (fuel + 1) n = Double.shift fuel (n / 2) + 1 := by
        rw [Double.shift, if_neg hn]
      have hd : n / 2 ^ (Double.shift fuel (n / 2) + 1)
          = n / 2 / 2 ^ Double.shift fuel (n / 2) := by
        rw [pow_succ, mul_comm, Nat.div_div_eq_div_mul]
      rw [hs, hd]
      refine ⟨i1, Or.inr ?_⟩
      rcases i2 with h0 | h0
      · rw [h0, pow_zero, Nat.div_one, Nat.le_div_iff_mul_le (by norm_num)]
        calc 2 ^ 52 * 2 = 2 ^ 53 := by norm_num
          _ ≤ n := not_lt.1 hn
      · exact h0

theorem Double.shift_self (n : ℕ) :
    n / 2 ^ Double.shift n n < 2 ^ 53 ∧
      (Double.shift n n = 0 ∨ 2 ^ 52 ≤ n / 2 ^ Double.shift n n) := by
  apply Double.shift_spec
  calc n < 2 ^ n := Nat.lt_two_pow n
    _ = 1 * 2 ^ n := (one_mul _).symm
    _ ≤ 2 ^ 53 * 2 ^ n := Nat.mul_le_mul_right _ (Nat.one_le_two_pow)

theorem Double.floor_le_round (n : ℕ) :
    n / 2 ^ Double.shift n n * 2 ^ Double.shift n n ≤ Double.round n := by
  unfold Double.round
  simp only
  split_ifs
  · exact le_rfl
  · exact Nat.mul_le_mul_right _ (Nat.le_succ _)
  · exact le_rfl
  · exact Nat.mul_le_mul_right _ (Nat.le_succ _)

/-- Rounding gives a double. -/
theorem Double.representable_round (n : ℕ) : Double.Representable (Double.round n) := by
  have hq : n / 2 ^ Double.shift n n < 2 ^ 53 := (Double.shift_self n).1
  have hup : Double.Representable
      ((n / 2 ^ Double.shift n n + 1) * 2 ^ Double.shift n n) := by
    rcases Nat.lt_or_ge (n / 2 ^ Double.shift n n + 1) (2 ^ 53) with h | h
    · exact ⟨_, _, rfl, h⟩
    · have he : n / 2 ^ Double.shift n n + 1 = 2 ^ 53 := le_antisymm hq h
      refine ⟨2 ^ 52, Double.shift n n + 1, ?_, by norm_num⟩
      rw [he, pow_succ 2 (Double.shift n n)]
      ring
  unfold Double.round
  simp only
  split_ifs
  · exact ⟨_, _, rfl, hq⟩
  · exact hup
  · exact ⟨_, _, rfl, hq⟩
  · exact hup

/-- Rounding does not go below a double that the exact value reaches. -/
theorem Double.le_round (a n : ℕ) (ha : Double.Representable a) (h : a ≤ n) :
    a ≤ Double.round n := by
  refine le_trans ?_ (Double.floor_le_round n)
  obtain ⟨m, j, rfl, hm⟩ := ha
  have hu : 0 < 2 ^ Double.shift n n := Nat.pos_pow_of_pos _ (by norm_num)
  by_cases hj : Double.shift n n ≤ j
  · have h2 : 2 ^ j = 2 ^ (j - Double.shift n n) * 2 ^ Double.shift n n := by
      rw [← pow_add, Nat.sub_add_cancel hj]
    have h3 : m * 2 ^ j = m * 2 ^ (j - Double.shift n n) * 2 ^ Double.shift n n := by
      rw [h2, mul_assoc]
    have h4 : m * 2 ^ (j - Double.shift n n) ≤ n / 2 ^ Double.shift n n := by
      rw [Nat.le_div_iff_mul_le hu, ← h3]
      exact h
    rw [h3]
    exact Nat.mul_le_mul_right _ h4
  · have h3 : 2 ^ 52 ≤ n / 2 ^ Double.shift n n := by
      rcases (Double.shift_self n).2 with h0 | h0
      · rw [h0] at hj
        exact absurd (Nat.zero_le j) hj
      · exact h0
    calc m * 2 ^ j ≤ 2 ^ 53 * 2 ^ j := Nat.mul_le_mul_right _ hm.le
      _ = 2 ^ (53 + j) := (pow_add 2 53 j).symm
      _ ≤ 2 ^ (52 + Double.shift n n) := Nat.pow_le_pow_right (by norm_num) (by omega)
      _ = 2 ^ 52 * 2 ^ Double.shift n n := pow_add 2 52 _
      _ ≤ n / 2 ^ Double.shift n n * 2 ^ Double.shift n n := Nat.mul_le_mul_right _ h3

theorem idleUnits_representable (k : ℕ) : Double.Representable (idleUnits k) := by
  cases k with
  | zero => exact ⟨0, 0, by simp [idleUnits], by norm_num⟩
  | succ k => exact Double.representable_round _

/-- The idle timer never decreases. -/
theorem idleUnits_mono : Monotone idleUnits := by
  apply monotone_nat_of_le_succ
  intro k
  exact Double.le_round _ _ (idleUnits_representable k) (Nat.le_add_right _ _)


theorem Double.scale_pos : (0 : α) < (Double.scale : α) := by
  have h : 0 < Double.scale := Nat.pos_pow_of_pos _ (by norm_num)
  exact_mod_cast h

theorem Double.two_lt_toField (n : ℕ) :
    (2 : α) < Double.toField n ↔ 2 * Double.scale < n := by
  unfold Double.toField
  rw [lt_div_iff₀ (Double.scale_pos (α := α))]
  constructor
  · intro h
    have h2 : ((2 * Double.scale : ℕ) : α) < (n : α) := by
      push_cast
      exact h
    exact_mod_cast h2
  · intro h
    have h2 : ((2 * Double.scale : ℕ) : α) < (n : α) := by exact_mod_cast h
    push_cast at h2
    exact h2

section DoubleTimer

variable [FloorRing α]

/-- The sum of two doubles, as `Double.add` computes it on their numbers, is
the rounding of the sum of their units. -/
theorem Double.add_toField (a b : ℕ) :
    Double.add (Double.toField a : α) (Double.toField b)
      = Double.toField (Double.round (a + b)) := by
  have hs : (Double.scale : α) ≠ 0 := (Double.scale_pos (α := α)).ne'
  have h : ((a : α) / (Double.scale : α) + (b : α) / (Double.scale : α))
      * (Double.scale : α) = ((a + b : ℕ) : α) := by
    push_cast
    field_simp
  simp only [Double.add, Double.fromField, Double.toField, h, Nat.floor_natCast]

set_option maxRecDepth 8000 in
/-- The double of the literal `0.016` is `1152921504606847 / 2^56`. -/
theorem Double.frameBudget_eq :
    Double.frameBudget * 2 ^ 56 = 1152921504606847 * Double.scale := by
  decide

set_option maxRecDepth 8000 in
/-- After `124` ticks the idle timer is not above `2`. -/
theorem idleUnits_124_le : idleUnits 124 ≤ 2 * Double.scale := by
  decide

set_option maxRecDepth 8000 in
/-- After `125` ticks the idle timer is `2 + 3 / 2^51`. -/
theorem idleUnits_125_eq : idleUnits 125 * 2 ^ 51 = (2 * 2 ^ 51 + 3) * Double.scale := by
  decide

set_option maxRecDepth 8000 in
theorem idleUnits_125_gt : 2 * Double.scale < idleUnits 125 := by
  decide

theorem idleUnits_gt_iff (k : ℕ) : 2 * Double.scale < idleUnits k ↔ 125 ≤ k := by
  constructor
  · intro h
    by_contra hk
    have h1 : idleUnits k ≤ idleUnits 124 := idleUnits_mono (by omega)
    have h2 := idleUnits_124_le
    omega
  · intro hk
    exact lt_of_lt_of_le idleUnits_125_gt (idleUnits_mono hk)

/-- Once `#autoRotate` is cleared the idle timer is not touched, and the tick
in doubles is the tick of `TagsCloud.update`. -/
theorem updateDouble_of_autoRotate_false (M : JSMath α) (s : TagsCloud α)
    (h : s.autoRotate = false) : s.updateDouble M = s.update M := by
  simp [TagsCloud.updateDouble, TagsCloud.update, h]

theorem updateDouble_of_idle_gt (M : JSMath α) (s : TagsCloud α)
    (h : s.autoRotate = true)
    (ht : 2 < Double.add s.idleTime (Double.toField Double.frameBudget)) :
    s.updateDouble M =
      { s with rotationAngle := jsAdd s.rotationAngle s.rotationSpeed,
               idleTime := Double.add s.idleTime (Double.toField Double.frameBudget),
               rotationSpeed := some 0.005,
               rotationAxis := idleAxis M
                 (Double.add s.idleTime (Double.toField Double.frameBudget)) } := by
  simp [TagsCloud.updateDouble, h, ht]

theorem updateDouble_of_idle_le (M : JSMath α) (s : TagsCloud α)
    (h : s.autoRotate = true)
    (ht : ¬ 2 < Double.add s.idleTime (Double.toField Double.frameBudget)) :
    s.updateDouble M =
      { s with rotationAngle := jsAdd s.rotationAngle s.rotationSpeed,
               idleTime := Double.add s.idleTime (Double.toField Double.frameBudget) } := by
  simp [TagsCloud.updateDouble, h, ht]

/-- The state after `k` ticks from construction, the idle timer in doubles. -/
theorem ticksDouble_new_state (M : JSMath α) (root : Root α) (N k : ℕ) :
    ((TagsCloud.new M root N).ticksDouble M k).autoRotate = true ∧
      ((TagsCloud.new M root N).ticksDouble M k).idleTime
        = Double.toField (idleUnits k) ∧
      (2 * Double.scale < idleUnits k →
        ((TagsCloud.new M root N).ticksDouble M k).rotationSpeed = some 0.005 ∧
        ((TagsCloud.new M root N).ticksDouble M k).rotationAxis
          = idleAxis M (Double.toField (idleUnits k))) ∧
      (¬ 2 * Double.scale < idleUnits k →
        ((TagsCloud.new M root N).ticksDouble M k).rotationSpeed = some 0 ∧
        ((TagsCloud.new M root N).ticksDouble M k).rotationAxis = (1, 0, 0) ∧
        ((TagsCloud.new M root N).ticksDouble M k).rotationAngle = some 0) := by
  induction k with
  | zero =>
    refine ⟨rfl, ?_, ?_, ?_⟩
    · simp [TagsCloud.ticksDouble, TagsCloud.new, idleUnits, Double.toField]
    · intro h
      simp [idleUnits] at h
    · intro _
      exact ⟨rfl, rfl, rfl⟩
  | succ k ih =>
    obtain ⟨ha, ht, -, hle⟩ := ih
    have hadd : Double.add ((TagsCloud.new M root N).ticksDouble M k).idleTime
        (Double.toField Double.frameBudget) = Double.toField (idleUnits (k + 1)) := by
      rw [ht, Double.add_toField]
      rfl
    simp only [TagsCloud.ticksDouble]
    by_cases hgt : 2 < Double.add ((TagsCloud.new M root N).ticksDouble M k).idleTime
        (Double.toField Double.frameBudget)
    · rw [updateDouble_of_idle_gt M _ ha hgt]
      have hgt2 : 2 * Double.scale < idleUnits (k + 1) := by
        rw [hadd] at hgt
        exact (Double.two_lt_toField _).1 hgt
      exact ⟨ha, hadd, fun _ => ⟨rfl, congrArg (idleAxis M) hadd⟩,
        fun h => absurd hgt2 h⟩
    · rw [updateDouble_of_idle_le M _ ha hgt]
      have hn : ¬ 2 * Double.scale < idleUnits (k + 1) := by
        rw [hadd] at hgt
        exact fun h => hgt ((Double.two_lt_toField _).2 h)
      have hk : ¬ 2 * Double.scale < idleUnits k := fun h =>
        hn (lt_of_lt_of_le h (idleUnits_mono (Nat.le_succ k)))
      obtain ⟨hs, hax, hang⟩ := hle hk
      exact ⟨ha, hadd, fun h => absurd h hn,
        fun _ => ⟨hs, hax, by simp [hs, hang, jsAdd]⟩⟩

/-- C15, as the program has it: from the constructed state and without
pointer or touch input, after `k` ticks `#idleTime` is the double that `k`
additions of the double `0.016` give (`idleUnits k` units of `2^-58`); the idle
tumble is in effect after tick `k` (`#rotationSpeed = 0.005` and
`#rotationAxis` the idle axis `(sin(0.5 t) 0.5, cos(0.3 t) 0.5, sin(0.2 t) 0.5)`
at `t = #idleTime`) exactly when `#idleTime > 2`, which is exactly when
`k ≥ 125`; through tick `124` the speed stays `0`, the axis `(1, 0, 0)` and the
angle `0`. -/
theorem idle_tumble_starts_at_tick_125 (M : JSMath α) (root : Root α) (N k : ℕ) :
    ((TagsCloud.new M root N).ticksDouble M k).idleTime
        = Double.toField (idleUnits k) ∧
      ((((TagsCloud.new M root N).ticksDouble M k).rotationSpeed = some 0.005 ∧
          ((TagsCloud.new M root N).ticksDouble M k).rotationAxis
            = (M.sin (((TagsCloud.new M root N).ticksDouble M k).idleTime * 0.5) * 0.5,
                M.cos (((TagsCloud.new M root N).ticksDouble M k).idleTime * 0.3) * 0.5,
                M.sin (((TagsCloud.new M root N).ticksDouble M k).idleTime * 0.2) * 0.5))
        ↔ 2 < ((TagsCloud.new M root N).ticksDouble M k).idleTime) ∧
      (2 < ((TagsCloud.new M root N).ticksDouble M k).idleTime ↔ 125 ≤ k) ∧
      (k ≤ 124 →
        ((TagsCloud.new M root N).ticksDouble M k).rotationSpeed = some 0 ∧
        ((TagsCloud.new M root N).ticksDouble M k).rotationAxis = (1, 0, 0) ∧
        ((TagsCloud.new M root N).ticksDouble M k).rotationAngle = some 0) := by
  obtain ⟨-, ht, hgt, hle⟩ := ticksDouble_new_state M root N k
  have hiff : 2 < ((TagsCloud.new M root N).ticksDouble M k).idleTime ↔ 125 ≤ k := by
    rw [ht, Double.two_lt_toField, idleUnits_gt_iff]
  refine ⟨ht, ?_, hiff, ?_⟩
  · constructor
    · rintro ⟨hs, -⟩
      by_contra hn
      have hn2 : ¬ 2 * Double.scale < idleUnits k := by
        rw [ht, Double.two_lt_toField] at hn
        exact hn
      rw [(hle hn2).1] at hs
      have h0 : (0 : α) = 0.005 := Option.some.inj hs
      norm_num at h0
    · intro h
      have h2 : 2 * Double.scale < idleUnits k := by
        rw [ht, Double.two_lt_toField] at h
        exact h
      obtain ⟨hs, hax⟩ := hgt h2
      refine ⟨hs, ?_⟩
      rw [hax, ht]
      rfl
  · intro hk
    apply hle
    rw [idleUnits_gt_iff]
    omega

end DoubleTimer

theorem idle_tumble_starts_at_tick_125_witness :
    (((TagsCloud.new (JSMath.mk Real.pi Real.sqrt Real.sin Real.cos
          (fun y x => Complex.arg ⟨x, y⟩) Real.log) ⟨300, 200, 0, 0⟩ 4).ticksDouble
        (JSMath.mk Real.pi Real.sqrt Real.sin Real.cos
          (fun y x => Complex.arg ⟨x, y⟩) Real.log) 124).rotationSpeed = some 0 ∧
      ((TagsCloud.new (JSMath.mk Real.pi Real.sqrt Real.sin Real.cos
          (fun y x => Complex.arg ⟨x, y⟩) Real.log) ⟨300, 200, 0, 0⟩ 4).ticksDouble
        (JSMath.mk Real.pi Real.sqrt Real.sin Real.cos
          (fun y x => Complex.arg ⟨x, y⟩) Real.log) 124).rotationAxis = (1, 0, 0) ∧
      ((TagsCloud.new (JSMath.mk Real.pi Real.sqrt Real.sin Real.cos
          (fun y x => Complex.arg ⟨x, y⟩) Real.log) ⟨300, 200, 0, 0⟩ 4).ticksDouble
        (JSMath.mk Real.pi Real.sqrt Real.sin Real.cos
          (fun y x => Complex.arg ⟨x, y⟩) Real.log) 124).rotationAngle = some 0) ∧
      (2 : ℝ) < ((TagsCloud.new (JSMath.mk Real.pi Real.sqrt Real.sin Real.cos
          (fun y x => Complex.arg ⟨x, y⟩) Real.log) ⟨300, 200, 0, 0⟩ 4).ticksDouble
        (JSMath.mk Real.pi Real.sqrt Real.sin Real.cos
          (fun y x => Complex.arg ⟨x, y⟩) Real.log) 125).idleTime :=
  ⟨(idle_tumble_starts_at_tick_125 _ ⟨300, 200, 0, 0⟩ 4 124).2.2.2 (by decide),
    ((idle_tumble_starts_at_tick_125 (JSMath.mk Real.pi Real.sqrt Real.sin Real.cos
        (fun y x => Complex.arg ⟨x, y⟩) Real.log) ⟨300, 200, 0, 0⟩ 4 125).2.2.1).2
      (by decide)⟩

/-- C15 as stated fails: after construction and `125` ticks without pointer
input, the program's `#idleTime` is the double `2 + 3 / 2^51`
(`2.0000000000000013`), which exceeds `2`, so tick `125` has set
`#rotationSpeed = 0.005`: the speed has not stayed `0` through tick `125`, and
the tumble is in effect although `0.016 * 125 > 2` is false. -/
theorem idle_tumble_in_effect_after_tick_125 :
    ((TagsCloud.new (JSMath.mk Real.pi Real.sqrt Real.sin Real.cos
          (fun y x => Complex.arg ⟨x, y⟩) Real.log) ⟨300, 200, 0, 0⟩ 4).ticksDouble
        (JSMath.mk Real.pi Real.sqrt Real.sin Real.cos
          (fun y x => Complex.arg ⟨x, y⟩) Real.log) 125).idleTime
        = 2 + 3 / 2 ^ 51 ∧
      ((TagsCloud.new (JSMath.mk Real.pi Real.sqrt Real.sin Real.cos
          (fun y x => Complex.arg ⟨x, y⟩) Real.log) ⟨300, 200, 0, 0⟩ 4).ticksDouble
        (JSMath.mk Real.pi Real.sqrt Real.sin Real.cos
          (fun y x => Complex.arg ⟨x, y⟩) Real.log) 125).rotationSpeed
        = some 0.005 ∧
      ((TagsCloud.new (JSMath.mk Real.pi Real.sqrt Real.sin Real.cos
          (fun y x => Complex.arg ⟨x, y⟩) Real.log) ⟨300, 200, 0, 0⟩ 4).ticksDouble
        (JSMath.mk Real.pi Real.sqrt Real.sin Real.cos
          (fun y x => Complex.arg ⟨x, y⟩) Real.log) 125).rotationSpeed
        ≠ some 0 ∧
      ¬ ((2 : ℝ) < 0.016 * 125) := by
  obtain ⟨-, ht, hgt, -⟩ := ticksDouble_new_state
    (JSMath.mk Real.pi Real.sqrt Real.sin Real.cos
      (fun y x => Complex.arg ⟨x, y⟩) Real.log) ⟨300, 200, 0, 0⟩ 4 125
  have hs := (hgt idleUnits_125_gt).1
  refine ⟨?_, hs, ?_, by norm_num⟩
  · rw [ht]
    unfold Double.toField
    have h : ((idleUnits 125 : ℕ) : ℝ) * 2 ^ 51
        = (2 * 2 ^ 51 + 3) * (Double.scale : ℝ) := by
      exact_mod_cast idleUnits_125_eq
    rw [div_eq_iff (Double.scale_pos (α := ℝ)).ne']
    have hpos : (0 : ℝ) < 2 ^ 51 := by positivity
    field_simp
    linarith
  · rw [hs]
    intro h
    have h0 : (0.005 : ℝ) = 0 := Option.some.inj h
    norm_num at h0

/-! ### The pointer handlers -/

/-- C13: for a mouse move whose offset `(dx, dy)` from the centre of the
container has length `d = sqrt(dx² + dy²) > 0`, `#onMouseMove` stores the axis
`(sin a, cos a, 0)` with `a = atan2(dx, dy) - π/2`, which is `(-dy/d, dx/d, 0)`:
a unit vector with zero third component, perpendicular to `(dx, dy, 0)`; and
it stores the speed `d / max(innerHeight, innerWidth) / 20`, a non-negative
number when the larger viewport dimension is positive (the quotient by `0` is
not finite). -/
theorem onMouseMove_axis_speed (M : JSMath ℝ) (hM : IsRealMath M) (s : TagsCloud ℝ)
    (e : Pointer ℝ) (root : Root ℝ) (window : Window ℝ) (dx dy : ℝ)
    (hdx : dx = e.clientX - (root.left + root.offsetWidth / 2))
    (hdy : dy = e.clientY - (root.top + root.offsetHeight / 2))
    (hd : 0 < Real.sqrt (dx ^ 2 + dy ^ 2)) :
    (s.onMouseMove M e root window).rotationAxis
        = (M.sin (M.atan2 dx dy - M.PI / 2), M.cos (M.atan2 dx dy - M.PI / 2), 0) ∧
      (s.onMouseMove M e root window).rotationAxis
        = (-dy / Real.sqrt (dx ^ 2 + dy ^ 2), dx / Real.sqrt (dx ^ 2 + dy ^ 2), 0) ∧
      (s.onMouseMove M e root window).rotationAxis.1 ^ 2
        + (s.onMouseMove M e root window).rotationAxis.2.1 ^ 2
        + (s.onMouseMove M e root window).rotationAxis.2.2 ^ 2 = 1 ∧
      (s.onMouseMove M e root window).rotationAxis.2.2 = 0 ∧
      (s.onMouseMove M e root window).rotationAxis.1 * dx
        + (s.onMouseMove M e root window).rotationAxis.2.1 * dy
        + (s.onMouseMove M e root window).rotationAxis.2.2 * 0 = 0 ∧
      (0 < max window.innerHeight window.innerWidth →
        (s.onMouseMove M e root window).rotationSpeed
          = some (Real.sqrt (dx ^ 2 + dy ^ 2)
              / max window.innerHeight window.innerWidth / 20) ∧
        0 ≤ Real.sqrt (dx ^ 2 + dy ^ 2)
              / max window.innerHeight window.innerWidth / 20) ∧
      (max window.innerHeight window.innerWidth = 0 →
        (s.onMouseMove M e root window).rotationSpeed = none) := by
  obtain ⟨hpi, hsqrt, hsin, hcos, hatan, -⟩ := hM
  have hax0 : (s.onMouseMove M e root window).rotationAxis
      = (M.sin (M.atan2 dx dy - M.PI / 2), M.cos (M.atan2 dx dy - M.PI / 2), 0) := by
    simp only [TagsCloud.onMouseMove, hdx, hdy]
  have hz : (⟨dy, dx⟩ : ℂ) ≠ 0 := by
    intro h
    have h1 : dy = 0 := congrArg Complex.re h
    have h2 : dx = 0 := congrArg Complex.im h
    rw [h1, h2] at hd
    simp at hd
  have habs : Complex.abs ⟨dy, dx⟩ = Real.sqrt (dx ^ 2 + dy ^ 2) := by
    rw [Complex.abs_apply, Complex.normSq_apply]
    congr 1
    ring
  have hs : M.sin (M.atan2 dx dy - M.PI / 2) = -dy / Real.sqrt (dx ^ 2 + dy ^ 2) := by
    rw [hsin, hatan, hpi, Real.sin_sub_pi_div_two, Complex.cos_arg hz, habs]
    ring
  have hc : M.cos (M.atan2 dx dy - M.PI / 2) = dx / Real.sqrt (dx ^ 2 + dy ^ 2) := by
    rw [hcos, hatan, hpi, Real.cos_sub_pi_div_two, Complex.sin_arg, habs]
  have hax : (s.onMouseMove M e root window).rotationAxis
      = (-dy / Real.sqrt (dx ^ 2 + dy ^ 2), dx / Real.sqrt (dx ^ 2 + dy ^ 2), 0) := by
    rw [hax0, hs, hc]
  have hsq : Real.sqrt (dx ^ 2 + dy ^ 2) ^ 2 = dx ^ 2 + dy ^ 2 :=
    Real.sq_sqrt (by positivity)
  have hspeed : (s.onMouseMove M e root window).rotationSpeed
      = (jsDiv (Real.sqrt (dx ^ 2 + dy ^ 2))
          (max window.innerHeight window.innerWidth)).map (fun q => q / 20) := by
    simp only [TagsCloud.onMouseMove, hdx, hdy, hsqrt]
  refine ⟨hax0, hax, ?_, ?_, ?_, ?_, ?_⟩
  · rw [hax]
    simp only
    generalize Real.sqrt (dx ^ 2 + dy ^ 2) = d at hd hsq
    have hne : d ≠ 0 := hd.ne'
    have h2 : (-dy / d) ^ 2 + (dx / d) ^ 2 + (0 : ℝ) ^ 2 = (dx ^ 2 + dy ^ 2) / d ^ 2 := by
      field_simp
      ring
    rw [h2, ← hsq, div_self (pow_ne_zero 2 hne)]
  · rw [hax]
  · rw [hax]
    simp only
    generalize Real.sqrt (dx ^ 2 + dy ^ 2) = d at hd
    have hne : d ≠ 0 := hd.ne'
    field_simp
    ring
  · intro hv
    constructor
    · rw [hspeed]
      simp only [jsDiv, if_neg hv.ne', Option.map_some']
    · positivity
  · intro hv
    rw [hspeed]
    simp only [jsDiv, hv, if_true, Option.map_none']

theorem onMouseMove_axis_speed_witness :
    IsRealMath (JSMath.mk Real.pi Real.sqrt Real.sin Real.cos
        (fun y x => Complex.arg ⟨x, y⟩) Real.log) ∧
      (3 : ℝ) = 153 - (0 + 300 / 2) ∧ (4 : ℝ) = 124 - (20 + 200 / 2) ∧
      0 < Real.sqrt ((3 : ℝ) ^ 2 + 4 ^ 2) ∧
      ((TagsCloud.new (JSMath.mk Real.pi Real.sqrt Real.sin Real.cos
            (fun y x => Complex.arg ⟨x, y⟩) Real.log) ⟨300, 200, 0, 20⟩ 4).onMouseMove
          (JSMath.mk Real.pi Real.sqrt Real.sin Real.cos
            (fun y x => Complex.arg ⟨x, y⟩) Real.log) ⟨153, 124⟩ ⟨300, 200, 0, 20⟩
          ⟨800, 600⟩).rotationAxis
        = (-4 / Real.sqrt ((3 : ℝ) ^ 2 + 4 ^ 2), 3 / Real.sqrt ((3 : ℝ) ^ 2 + 4 ^ 2), 0) :=
  have hpos : 0 < Real.sqrt ((3 : ℝ) ^ 2 + 4 ^ 2) := Real.sqrt_pos.2 (by norm_num)
  ⟨isRealMath_mk, by norm_num, by norm_num, hpos,
    (onMouseMove_axis_speed _ isRealMath_mk _ ⟨153, 124⟩ ⟨300, 200, 0, 20⟩ ⟨800, 600⟩
      3 4 (by norm_num) (by norm_num) hpos).2.1⟩

/-! ### Depth cues in reachable states -/

theorem normSq_axis_le_one (M : JSMath ℝ) (hM : IsRealMath M) (s : TagsCloud ℝ)
    (hs : Reachable M s) : normSq s.rotationAxis ≤ 1 := by
  obtain ⟨root, N, events, rfl⟩ := hs
  rcases axisInv_run M hM events _ (axisInv_new M root N) with ⟨-, -, h⟩ | ⟨-, h⟩
  · rw [h]
    have := normSq_idleAxis_le M hM ((TagsCloud.new M root N).run M events).idleTime
    linarith
  · exact h.le

theorem depth_cues_of_abs_le_one (t : ℝ) (h1 : -1 ≤ t) (h2 : t ≤ 1) :
    0.2 ≤ opacity t ∧ opacity t ≤ 1 ∧ 0 < opacity t ∧
      1 / 3 ≤ depthScale t ∧ depthScale t ≤ 1 := by
  have ho : opacity t = (t + 3 / 2) * (2 / 5) := by
    unfold opacity
    norm_num
    ring
  have hd : depthScale t = (t + 2) / 3 := rfl
  rw [ho, hd]
  norm_num
  refine ⟨?_, ?_, ?_, ?_, ?_⟩ <;> linarith

/-- C16: in every reachable state (whatever its axis: the initial one, one of
a pointer handler, one of the idle tumble), for every angle and every point of
a sphere of at least two points, the rotated third coordinate `transformedZ`
lies in `[-1, 1]`; so `opacity` lies in `[0.2, 1]`, is never zero, and
`depthScale` lies in `[1/3, 1]`. -/
theorem transformedZ_in_unit_interval (M : JSMath ℝ) (hM : IsRealMath M)
    (s : TagsCloud ℝ) (hs : Reachable M s) (hN : 2 ≤ s.sphere.length)
    (i : ℕ) (hi : i < s.sphere.length) (θ : ℝ) :
    ∃ x y z : ℝ, s.sphere[i]? = some (some x, some y, some z) ∧
      -1 ≤ (transformed (rotationMatrix M s.rotationAxis θ) (x, y, z)).2.2 ∧
      (transformed (rotationMatrix M s.rotationAxis θ) (x, y, z)).2.2 ≤ 1 ∧
      0.2 ≤ opacity (transformed (rotationMatrix M s.rotationAxis θ) (x, y, z)).2.2 ∧
      opacity (transformed (rotationMatrix M s.rotationAxis θ) (x, y, z)).2.2 ≤ 1 ∧
      0 < opacity (transformed (rotationMatrix M s.rotationAxis θ) (x, y, z)).2.2 ∧
      1 / 3 ≤ depthScale (transformed (rotationMatrix M s.rotationAxis θ) (x, y, z)).2.2 ∧
      depthScale (transformed (rotationMatrix M s.rotationAxis θ) (x, y, z)).2.2 ≤ 1 := by
  have haxis := normSq_axis_le_one M hM s hs
  obtain ⟨root, N, events, rfl⟩ := hs
  rw [run_sphere] at hN hi ⊢
  have hlen : (TagsCloud.new M root N).sphere.length = N := by
    simp [TagsCloud.new, FibonacciSphere]
  rw [hlen] at hN hi
  obtain ⟨x, y, z, hp, hunit⟩ := point_finite_unit M hM N i hN hi
  have hstored : (TagsCloud.new M root N).sphere[i]? = some (some x, some y, some z) := by
    show (FibonacciSphere M N)[i]? = _
    rw [getElem?_FibonacciSphere M N i hi, hp]
  have hle := normSq_transformed_le M hM _ haxis θ (x, y, z)
  rw [hunit] at hle
  have hz2 : (transformed (rotationMatrix M
      ((TagsCloud.new M root N).run M events).rotationAxis θ) (x, y, z)).2.2 ^ 2 ≤ 1 := by
    unfold normSq at hle
    nlinarith [sq_nonneg (transformed (rotationMatrix M
        ((TagsCloud.new M root N).run M events).rotationAxis θ) (x, y, z)).1,
      sq_nonneg (transformed (rotationMatrix M
        ((TagsCloud.new M root N).run M events).rotationAxis θ) (x, y, z)).2.1]
  obtain ⟨h1, h2⟩ := abs_le.1 ((sq_le_one_iff_abs_le_one _).1 hz2)
  obtain ⟨a, b, c, d, e⟩ := depth_cues_of_abs_le_one _ h1 h2
  exact ⟨x, y, z, hstored, h1, h2, a, b, c, d, e⟩

theorem transformedZ_in_unit_interval_witness :
    IsRealMath (JSMath.mk Real.pi Real.sqrt Real.sin Real.cos
        (fun y x => Complex.arg ⟨x, y⟩) Real.log) ∧
      Reachable (JSMath.mk Real.pi Real.sqrt Real.sin Real.cos
          (fun y x => Complex.arg ⟨x, y⟩) Real.log)
        ((TagsCloud.new (JSMath.mk Real.pi Real.sqrt Real.sin Real.cos
            (fun y x => Complex.arg ⟨x, y⟩) Real.log) ⟨300, 200, 0, 0⟩ 4).run
          (JSMath.mk Real.pi Real.sqrt Real.sin Real.cos
            (fun y x => Complex.arg ⟨x, y⟩) Real.log)
          (List.replicate 126 Event.tick)) ∧
      ∃ x y z : ℝ,
        ((TagsCloud.new (JSMath.mk Real.pi Real.sqrt Real.sin Real.cos
            (fun y x => Complex.arg ⟨x, y⟩) Real.log) ⟨300, 200, 0, 0⟩ 4).run
          (JSMath.mk Real.pi Real.sqrt Real.sin Real.cos
            (fun y x => Complex.arg ⟨x, y⟩) Real.log)
          (List.replicate 126 Event.tick)).sphere[1]? = some (some x, some y, some z) ∧
        -1 ≤ (transformed (rotationMatrix (JSMath.mk Real.pi Real.sqrt Real.sin Real.cos
            (fun y x => Complex.arg ⟨x, y⟩) Real.log)
          ((TagsCloud.new (JSMath.mk Real.pi Real.sqrt Real.sin Real.cos
              (fun y x => Complex.arg ⟨x, y⟩) Real.log) ⟨300, 200, 0, 0⟩ 4).run
            (JSMath.mk Real.pi Real.sqrt Real.sin Real.cos
              (fun y x => Complex.arg ⟨x, y⟩) Real.log)
            (List.replicate 126 Event.tick)).rotationAxis (7 / 10)) (x, y, z)).2.2 ∧
        (transformed (rotationMatrix (JSMath.mk Real.pi Real.sqrt Real.sin Real.cos
            (fun y x => Complex.arg ⟨x, y⟩) Real.log)
          ((TagsCloud.new (JSMath.mk Real.pi Real.sqrt Real.sin Real.cos
              (fun y x => Complex.arg ⟨x, y⟩) Real.log) ⟨300, 200, 0, 0⟩ 4).run
            (JSMath.mk Real.pi Real.sqrt Real.sin Real.cos
              (fun y x => Complex.arg ⟨x, y⟩) Real.log)
            (List.replicate 126 Event.tick)).rotationAxis (7 / 10)) (x, y, z)).2.2 ≤ 1 :=
  have hr : Reachable (JSMath.mk Real.pi Real.sqrt Real.sin Real.cos
          (fun y x => Complex.arg ⟨x, y⟩) Real.log)
        ((TagsCloud.new (JSMath.mk Real.pi Real.sqrt Real.sin Real.cos
            (fun y x => Complex.arg ⟨x, y⟩) Real.log) ⟨300, 200, 0, 0⟩ 4).run
          (JSMath.mk Real.pi Real.sqrt Real.sin Real.cos
            (fun y x => Complex.arg ⟨x, y⟩) Real.log)
          (List.replicate 126 Event.tick)) := ⟨_, _, _, rfl⟩
  have hlen : ((TagsCloud.new (JSMath.mk Real.pi Real.sqrt Real.sin Real.cos
            (fun y x => Complex.arg ⟨x, y⟩) Real.log) ⟨300, 200, 0, 0⟩ 4).run
          (JSMath.mk Real.pi Real.sqrt Real.sin Real.cos
            (fun y x => Complex.arg ⟨x, y⟩) Real.log)
          (List.replicate 126 Event.tick)).sphere.length = 4 := by
    rw [run_sphere]
    simp [TagsCloud.new, FibonacciSphere]
  have h := transformedZ_in_unit_interval _ isRealMath_mk _ hr
    (by rw [hlen]; decide) 1 (by rw [hlen]; decide) (7 / 10)
  ⟨isRealMath_mk, hr, h.imp fun _ hx => hx.imp fun _ hy => hy.imp fun _ hz =>
    ⟨hz.1, hz.2.1, hz.2.2.1⟩⟩

end Engine

/-! ## The words of the cloud -/

section Words

theorem firstIndexOf_append_of_mem (w : JSString) (l l2 : List JSString) (h : w ∈ l) :
    firstIndexOf w (l ++ l2) = firstIndexOf w l := by
  induction l with
  | nil => simp at h
  | cons a l ih =>
    by_cases ha : a = w
    · simp [firstIndexOf, ha]
    · have hw : w ∈ l := by
        rcases List.mem_cons.1 h with h1 | h1
        · exact absurd h1.symm ha
        · exact h1
      simp [firstIndexOf, ha, ih hw]

theorem firstIndexOf_append_self_of_not_mem (w : JSString) (l : List JSString)
    (h : w ∉ l) : firstIndexOf w (l ++ [w]) = l.length := by
  induction l with
  | nil => simp [firstIndexOf]
  | cons a l ih =>
    have ha : a ≠ w := fun e => h (by simp [e])
    have hw : w ∉ l := fun e => h (List.mem_cons_of_mem _ e)
    simp [firstIndexOf, ha, ih hw]

theorem firstIndexOf_lt_length (w : JSString) (l : List JSString) (h : w ∈ l) :
    firstIndexOf w l < l.length := by
  induction l with
  | nil => simp at h
  | cons a l ih =>
    by_cases ha : a = w
    · simp [firstIndexOf, ha]
    · have hw : w ∈ l := by
        rcases List.mem_cons.1 h with h1 | h1
        · exact absurd h1.symm ha
        · exact h1
      simp [firstIndexOf, ha, ih hw]

theorem cloudCandidates_append_singleton (l : List JSString) (m : JSString) :
    cloudCandidates (l ++ [m]) = cloudCandidates l ++
      (if isCloudMessage m = true ∧ cleanMessage m ≠ [] then [cleanMessage m] else []) := by
  by_cases h1 : isCloudMessage m = true
  · by_cases h2 : cleanMessage m = []
    · simp [cloudCandidates, List.filter_append, List.filter_cons, h1, h2]
    · simp [cloudCandidates, List.filter_append, List.filter_cons, h1, h2]
  · simp [cloudCandidates, List.filter_append, List.filter_cons, h1]

theorem extractStep_of_not_cloud (st : List JSString × List JSString) (m : JSString)
    (h : ¬ isCloudMessage m = true) : extractStep st m = st := by
  simp [extractStep, h]

theorem extractStep_of_not_startsWith (st : List JSString × List JSString)
    (m : JSString) (h : startsWithCloud m = false) : extractStep st m = st := by
  apply extractStep_of_not_cloud
  simp [isCloudMessage, h]

/-- The invariant of the loop of `extractCloudWords`: `seenWords` holds the
words of `cloudWords`, which are the candidates seen so far, each once, in the
order of their first occurrences. -/
theorem extract_invariant (messages : List JSString) :
    (∀ x, x ∈ (messages.foldl extractStep ([], [])).2
        ↔ x ∈ (messages.foldl extractStep ([], [])).1) ∧
      (messages.foldl extractStep ([], [])).1.Nodup ∧
      (∀ x, x ∈ (messages.foldl extractStep ([], [])).1
        ↔ x ∈ cloudCandidates messages) ∧
      ((messages.foldl extractStep ([], [])).1.map
        (fun x => firstIndexOf x (cloudCandidates messages))).Pairwise (· < ·) := by
  induction messages using List.reverseRecOn with
  | nil => simp [cloudCandidates]
  | append_singleton l m ih =>
    obtain ⟨hseen, hnd, hmem, hord⟩ := ih
    rw [List.foldl_append, List.foldl_cons, List.foldl_nil,
      cloudCandidates_append_singleton]
    generalize l.foldl extractStep ([], []) = st at hseen hnd hmem hord
    by_cases h1 : isCloudMessage m = true ∧ cleanMessage m ≠ []
    · rw [if_pos h1]
      by_cases h2 : cleanMessage m ∈ st.2
      · have hst : extractStep st m = st := by
          simp [extractStep, h1.1, h2]
        have hc : cleanMessage m ∈ cloudCandidates l := (hmem _).1 ((hseen _).1 h2)
        rw [hst]
        refine ⟨hseen, hnd, ?_, ?_⟩
        · intro x
          rw [hmem x]
          constructor
          · intro hx
            exact List.mem_append_left _ hx
          · intro hx
            rcases List.mem_append.1 hx with h | h
            · exact h
            · rw [List.mem_singleton.1 h]
              exact hc
        · have hcongr : st.1.map (fun x => firstIndexOf x
              (cloudCandidates l ++ [cleanMessage m]))
              = st.1.map (fun x => firstIndexOf x (cloudCandidates l)) := by
            apply List.map_congr_left
            intro x hx
            exact firstIndexOf_append_of_mem x _ _ ((hmem x).1 hx)
          rw [hcongr]
          exact hord
      · have hst : extractStep st m
            = (st.1 ++ [cleanMessage m], cleanMessage m :: st.2) := by
          simp [extractStep, h1.1, h1.2, h2]
        have hnw : cleanMessage m ∉ st.1 := fun h => h2 ((hseen _).2 h)
        have hnc : cleanMessage m ∉ cloudCandidates l := fun h => hnw ((hmem _).2 h)
        rw [hst]
        refine ⟨?_, ?_, ?_, ?_⟩
        · intro x
          simp only [List.mem_cons, List.mem_append, List.mem_singleton, hseen x]
          tauto
        · simp only
          rw [List.nodup_append]
          refine ⟨hnd, List.nodup_singleton _, ?_⟩
          intro x hx hx2
          rw [List.mem_singleton.1 hx2] at hx
          exact hnw hx
        · intro x
          simp only [List.mem_append, List.mem_singleton, hmem x]
        · simp only [List.map_append, List.map_cons, List.map_nil]
          rw [List.pairwise_append]
          refine ⟨?_, List.pairwise_singleton _ _, ?_⟩
          · have hcongr : st.1.map (fun x => firstIndexOf x
                (cloudCandidates l ++ [cleanMessage m]))
                = st.1.map (fun x => firstIndexOf x (cloudCandidates l)) := by
              apply List.map_congr_left
              intro x hx
              exact firstIndexOf_append_of_mem x _ _ ((hmem x).1 hx)
            rw [hcongr]
            exact hord
          · intro a ha b hb
            rw [List.mem_singleton.1 hb, firstIndexOf_append_self_of_not_mem _ _ hnc]
            obtain ⟨x, hx, rfl⟩ := List.mem_map.1 ha
            rw [firstIndexOf_append_of_mem x _ _ ((hmem x).1 hx)]
            exact firstIndexOf_lt_length x _ ((hmem x).1 hx)
    · rw [if_neg h1, List.append_nil]
      have hst : extractStep st m = st := by
        by_cases hc : isCloudMessage m = true
        · have : cleanMessage m = [] := by
            by_contra hne
            exact h1 ⟨hc, hne⟩
          simp [extractStep, hc, this]
        · exact extractStep_of_not_cloud st m hc
      rw [hst]
      exact ⟨hseen, hnd, hmem, hord⟩

theorem foldl_extractStep_filter (messages : List JSString) :
    ∀ st : List JSString × List JSString,
      (messages.filter startsWithCloud).foldl extractStep st
        = messages.foldl extractStep st := by
  induction messages with
  | nil => intro st; rfl
  | cons m l ih =>
    intro st
    cases h : startsWithCloud m with
    | true => simp only [List.filter_cons, h, if_true, List.foldl_cons, ih]
    | false =>
      rw [List.filter_cons_of_neg (by simp [h]), List.foldl_cons,
        extractStep_of_not_startsWith st m h]
      exact ih st

theorem mem_cloudCandidates (messages : List JSString) (w : JSString) :
    w ∈ cloudCandidates messages ↔
      w ≠ [] ∧ ∃ m ∈ messages, isCloudMessage m = true ∧ w = cleanMessage m := by
  simp only [cloudCandidates, List.mem_filter, List.mem_map, decide_eq_true_eq]
  constructor
  · rintro ⟨⟨m, ⟨hm, hc⟩, rfl⟩, hne⟩
    exact ⟨hne, m, hm, hc, rfl⟩
  · rintro ⟨hne, m, hm, hc, rfl⟩
    exact ⟨⟨m, ⟨hm, hc⟩, rfl⟩, hne⟩

/-- C20: for every list of messages, `extractCloudWords` returns a list
without duplicate and without empty string; its words are the non-empty
cleaned forms of the messages that start with the marker and are longer than
`2`, each word at the place of its first occurrence among them; and a message
that does not start with the marker leaves the loop state as it is, so that
dropping such messages does not change the result. -/
theorem extractCloudWords_nodup_first_occurrence (messages : List JSString) :
    (extractCloudWords messages).Nodup ∧
      [] ∉ extractCloudWords messages ∧
      (∀ w, w ∈ extractCloudWords messages ↔
        w ≠ [] ∧ ∃ m ∈ messages, isCloudMessage m = true ∧ w = cleanMessage m) ∧
      ((extractCloudWords messages).map
        (fun w => firstIndexOf w (cloudCandidates messages))).Pairwise (· < ·) ∧
      (∀ w ∈ extractCloudWords messages, ∃ m ∈ messages,
        startsWithCloud m = true ∧ 2 < m.length ∧ w = cleanMessage m) ∧
      (∀ (st : List JSString × List JSString) (m : JSString),
        startsWithCloud m = false → extractStep st m = st) ∧
      extractCloudWords (messages.filter startsWithCloud) = extractCloudWords messages := by
  obtain ⟨-, hnd, hmem, hord⟩ := extract_invariant messages
  have hchar : ∀ w, w ∈ extractCloudWords messages ↔
      w ≠ [] ∧ ∃ m ∈ messages, isCloudMessage m = true ∧ w = cleanMessage m := by
    intro w
    unfold extractCloudWords
    rw [hmem w, mem_cloudCandidates]
  refine ⟨hnd, ?_, hchar, hord, ?_, extractStep_of_not_startsWith, ?_⟩
  · intro h
    exact ((hchar []).1 h).1 rfl
  · intro w hw
    obtain ⟨-, m, hm, hc, rfl⟩ := (hchar w).1 hw
    simp only [isCloudMessage, Bool.and_eq_true, decide_eq_true_eq] at hc
    exact ⟨m, hm, hc.1, hc.2, rfl⟩
  · unfold extractCloudWords
    rw [foldl_extractStep_filter]

/-- An evaluation of `extractCloudWords`: of the messages `"☁ hi"`, `"hii"`,
`"☁hi! "`, `"☁ "`, `"☁!!"` and `"☁ab"` it keeps `"hi"` and `"ab"`. -/
theorem extractCloudWords_example :
    extractCloudWords [[0x2601, 0x20, 0x68, 0x69], [0x68, 0x69, 0x69],
        [0x2601, 0x68, 0x69, 0x21, 0x20], [0x2601, 0x20], [0x2601, 0x21, 0x21],
        [0x2601, 0x61, 0x62]]
      = [[0x68, 0x69], [0x61, 0x62]] := by
  decide

end Words

end TagCloud
